import Mathlib

/-!
# psych-timer: the Mindware event log and the websocket control plane

A shallow embedding of `mindware_emitter.go` and of the three handler loops of
`main.go`, followed by the properties of the specification that were checked
against them.

Conventions of the embedding.

* A Go `string` is a Lean `String`; the bytes written to a file are the
  characters appended to its `data`.
* `time.Now().UTC()` is an argument of the function that calls it: an instant
  is the number of nanoseconds since the Unix epoch.
* A Go function that can end in `panic` or in `os.Exit` returns an `Outcome`.
* What the operating system or the network answers to `os.Create`, to a write
  on a file, to a websocket upgrade and to a read is an argument of the
  function that makes the call. A write on a connection fails exactly when
  the connection has been closed.
* Channels are the lists of the messages sent on them, oldest first.
* Concurrency is a step relation: goroutines take turns, one statement of
  `WriteEvent` at a time, in the order a schedule gives.
-/

namespace Psych

/-! ## Ways a Go call can end -/

/-- A Go `error` value, reduced to its message. -/
structure GoError where
  msg : String
  deriving DecidableEq, Repr

/-- How a call ends: it returns, it panics with an error value, or it ends the
whole process with an exit status (`os.Exit`, reached through `log.Fatal`). -/
inductive Outcome (α : Type) where
  | returned (a : α)
  | panicked (e : GoError)
  | exited (status : Nat)
  deriving DecidableEq, Repr

/-! ## The `time` package: `Time.Format` on a UTC instant -/

/-- A UTC instant as `time.Now().UTC()` yields it: nanoseconds elapsed since
1970-01-01T00:00:00Z. The wall clock that `time.Now` reads counts nanoseconds
in a signed 64-bit integer and is never set before the epoch, so the count is
below 2^63 (the instants from 1970 to 2262). -/
structure Time where
  unixNano : Nat
  inRange : unixNano < 9223372036854775808
  deriving DecidableEq, Repr

/-- The instant of a count of nanoseconds, reduced to 63 bits. -/
def Time.ofNano (n : Nat) : Time :=
  { unixNano := n % 9223372036854775808, inRange := Nat.mod_lt _ (by decide) }

/-- Whole seconds since the epoch (`Time.Unix`). -/
def Time.unixSec (t : Time) : Nat := t.unixNano / 1000000000

/-- Nanoseconds within the second (`Time.Nanosecond`). -/
def Time.Nanosecond (t : Time) : Nat := t.unixNano % 1000000000

/-- Leap-year test of package `time`. -/
def isLeap (year : Nat) : Bool :=
  year % 4 == 0 && (year % 100 != 0 || year % 400 == 0)

/-- The table `daysBefore` of package `time`: `daysBefore m` counts the days of
a non-leap year before month `m + 1`. -/
def daysBefore : Nat → Nat
  | 0 => 0
  | 1 => 31
  | 2 => 59
  | 3 => 90
  | 4 => 120
  | 5 => 151
  | 6 => 181
  | 7 => 212
  | 8 => 243
  | 9 => 273
  | 10 => 304
  | 11 => 334
  | _ => 365

/-- A civil date: year, month (1..12), day of the month (1..31) and zero-based
day of the year. -/
structure CivilDate where
  year : Nat
  month : Nat
  day : Nat
  yday : Nat
  deriving DecidableEq, Repr

/-- First half of the function `absDate` of package `time`, run on a count of
days: the year and the zero-based day of the year. Go counts the days from
1 January of a year that is 1 modulo 400 far in the past; here they are counted
from 0001-01-01, which differs from Go's origin by a whole number of 400-year
cycles, so every step below is Go's. -/
def absYearDay (days : Nat) : Nat × Nat :=
  let d := days
  -- Account for 400 year cycles.
  let n := d / 146097
  let y := 400 * n
  let d := d - 146097 * n
  -- Cut off 100-year cycles; the last one has an extra leap year.
  let n := d / 36524
  let n := n - n / 4
  let y := y + 100 * n
  let d := d - 36524 * n
  -- Cut off 4-year cycles.
  let n := d / 1461
  let y := y + 4 * n
  let d := d - 1461 * n
  -- Cut off years within a 4-year cycle.
  let n := d / 365
  let n := n - n / 4
  let y := y + n
  let d := d - 365 * n
  (y + 1, d)

/-- Second half of `absDate` (its `full` part): month and day of the month from
the day of the year, given whether the year is a leap year. -/
def absMonthDay (leap : Bool) (yday : Nat) : Nat × Nat :=
  if leap && yday == 31 + 29 - 1 then
    -- Leap day.
    (2, 29)
  else
    -- After the leap day of a leap year, pretend it was not there.
    let day := if leap && yday > 31 + 29 - 1 then yday - 1 else yday
    -- Estimate the month as if every month had 31 days, then adjust.
    let m := day / 31
    let fin := daysBefore (m + 1)
    if day ≥ fin then (m + 2, day - fin + 1) else (m + 1, day - daysBefore m + 1)

/-- The function `absDate` of package `time`. -/
def absDate (days : Nat) : CivilDate :=
  let yd := absYearDay days
  let md := absMonthDay (isLeap yd.1) yd.2
  { year := yd.1, month := md.1, day := md.2, yday := yd.2 }

/-- Days from 0001-01-01 to 1970-01-01. -/
def unixToInternalDays : Nat := 1969 * 365 + 1969 / 4 - 1969 / 100 + 1969 / 400

/-- The civil date of an instant (`Time.Date`). -/
def Time.date (t : Time) : CivilDate := absDate (unixToInternalDays + t.unixSec / 86400)

/-- Year of the instant. -/
def Time.Year (t : Time) : Nat := t.date.year

/-- Month of the instant, 1..12. -/
def Time.Month (t : Time) : Nat := t.date.month

/-- Day of the month of the instant. -/
def Time.Day (t : Time) : Nat := t.date.day

/-- Day of the year of the instant, 1..366. -/
def Time.YearDay (t : Time) : Nat := t.date.yday + 1

/-- Hour of the day, 0..23. -/
def Time.Hour (t : Time) : Nat := t.unixSec % 86400 / 3600

/-- Minute of the hour. -/
def Time.Minute (t : Time) : Nat := t.unixSec % 3600 / 60

/-- Second of the minute. -/
def Time.Second (t : Time) : Nat := t.unixSec % 60

/-- Day of the week, Sunday = 0; 1970-01-01 was a Thursday. -/
def Time.Weekday (t : Time) : Nat := (t.unixSec / 86400 + 4) % 7

/-- One decimal digit as a character. -/
def digitChar (d : Nat) : Char := Char.ofNat (48 + d % 10)

/-- The decimal digits of `u`, most significant first; `fuel` bounds their
number. -/
def decimalDigits : Nat → Nat → List Char
  | 0, _ => []
  | fuel + 1, u =>
    if u < 10 then [digitChar u] else decimalDigits fuel (u / 10) ++ [digitChar (u % 10)]

/-- The function `appendInt` of package `time`: `x` in decimal, with a leading
minus sign when negative, padded with zeros on the left to `width` digits. A
number with more digits than `width` is written in full. -/
def appendInt (x : Int) (width : Nat) : List Char :=
  let u := x.natAbs
  let ds := decimalDigits (u + 1) u
  (if x < 0 then ['-'] else []) ++ List.replicate (width - ds.length) '0' ++ ds

/-- The layout elements of package `time` (its `std...` constants). The two
fractional-second elements carry their number of digits and their separator. -/
inductive Std where
  | stdNone
  | stdLongMonth | stdMonth | stdNumMonth | stdZeroMonth
  | stdLongWeekDay | stdWeekDay
  | stdDay | stdUnderDay | stdZeroDay | stdUnderYearDay | stdZeroYearDay
  | stdHour | stdHour12 | stdZeroHour12
  | stdMinute | stdZeroMinute | stdSecond | stdZeroSecond
  | stdLongYear | stdYear
  | stdPM | stdpm
  | stdTZ
  | stdISO8601TZ | stdISO8601SecondsTZ | stdISO8601ShortTZ
  | stdISO8601ColonTZ | stdISO8601ColonSecondsTZ
  | stdNumTZ | stdNumSecondsTz | stdNumShortTZ | stdNumColonTZ | stdNumColonSecondsTZ
  | stdFracSecond0 (digits : Nat) (sep : Char)
  | stdFracSecond9 (digits : Nat) (sep : Char)
  deriving DecidableEq, Repr

/-- Whether the text starts with a lower-case ASCII letter (`startsWithLowerCase`). -/
def startsWithLowerCase : List Char → Bool
  | [] => false
  | c :: _ => decide ('a'.toNat ≤ c.toNat ∧ c.toNat ≤ 'z'.toNat)

/-- Whether the text starts with a decimal digit (`isDigit` at its position). -/
def startsWithDigit : List Char → Bool
  | [] => false
  | c :: _ => decide ('0'.toNat ≤ c.toNat ∧ c.toNat ≤ '9'.toNat)

/-- The body of the scanning loop of `nextStdChunk` at one position: given the
layout from that position on, the layout element that starts there, if any,
as (literal text to copy before it, element, rest of the layout). The literal
text is empty except for `_2006`, whose underscore is literal. -/
def stdAt (l : List Char) : Option (List Char × Std × List Char) :=
  match l with
  | [] => none
  | c :: _ =>
    if c = 'J' then
      if "Jan".toList.isPrefixOf l then
        if "January".toList.isPrefixOf l then some ([], .stdLongMonth, l.drop 7)
        else if !startsWithLowerCase (l.drop 3) then some ([], .stdMonth, l.drop 3)
        else none
      else none
    else if c = 'M' then
      if "Mon".toList.isPrefixOf l then
        if "Monday".toList.isPrefixOf l then some ([], .stdLongWeekDay, l.drop 6)
        else if !startsWithLowerCase (l.drop 3) then some ([], .stdWeekDay, l.drop 3)
        else none
      else if "MST".toList.isPrefixOf l then some ([], .stdTZ, l.drop 3)
      else none
    else if c = '0' then
      if "01".toList.isPrefixOf l then some ([], .stdZeroMonth, l.drop 2)
      else if "02".toList.isPrefixOf l then some ([], .stdZeroDay, l.drop 2)
      else if "03".toList.isPrefixOf l then some ([], .stdZeroHour12, l.drop 2)
      else if "04".toList.isPrefixOf l then some ([], .stdZeroMinute, l.drop 2)
      else if "05".toList.isPrefixOf l then some ([], .stdZeroSecond, l.drop 2)
      else if "06".toList.isPrefixOf l then some ([], .stdYear, l.drop 2)
      else if "002".toList.isPrefixOf l then some ([], .stdZeroYearDay, l.drop 3)
      else none
    else if c = '1' then
      if "15".toList.isPrefixOf l then some ([], .stdHour, l.drop 2)
      else some ([], .stdNumMonth, l.drop 1)
    else if c = '2' then
      if "2006".toList.isPrefixOf l then some ([], .stdLongYear, l.drop 4)
      else some ([], .stdDay, l.drop 1)
    else if c = '_' then
      if "_2".toList.isPrefixOf l then
        if "_2006".toList.isPrefixOf l then some (['_'], .stdLongYear, l.drop 5)
        else some ([], .stdUnderDay, l.drop 2)
      else if "__2".toList.isPrefixOf l then some ([], .stdUnderYearDay, l.drop 3)
      else none
    else if c = '3' then some ([], .stdHour12, l.drop 1)
    else if c = '4' then some ([], .stdMinute, l.drop 1)
    else if c = '5' then some ([], .stdSecond, l.drop 1)
    else if c = 'P' then
      if "PM".toList.isPrefixOf l then some ([], .stdPM, l.drop 2) else none
    else if c = 'p' then
      if "pm".toList.isPrefixOf l then some ([], .stdpm, l.drop 2) else none
    else if c = '-' then
      if "-070000".toList.isPrefixOf l then some ([], .stdNumSecondsTz, l.drop 7)
      else if "-07:00:00".toList.isPrefixOf l then some ([], .stdNumColonSecondsTZ, l.drop 9)
      else if "-0700".toList.isPrefixOf l then some ([], .stdNumTZ, l.drop 5)
      else if "-07:00".toList.isPrefixOf l then some ([], .stdNumColonTZ, l.drop 6)
      else if "-07".toList.isPrefixOf l then some ([], .stdNumShortTZ, l.drop 3)
      else none
    else if c = 'Z' then
      if "Z070000".toList.isPrefixOf l then some ([], .stdISO8601SecondsTZ, l.drop 7)
      else if "Z07:00:00".toList.isPrefixOf l then some ([], .stdISO8601ColonSecondsTZ, l.drop 9)
      else if "Z0700".toList.isPrefixOf l then some ([], .stdISO8601TZ, l.drop 5)
      else if "Z07:00".toList.isPrefixOf l then some ([], .stdISO8601ColonTZ, l.drop 6)
      else if "Z07".toList.isPrefixOf l then some ([], .stdISO8601ShortTZ, l.drop 3)
      else none
    else if c = '.' ∨ c = ',' then
      match l.drop 1 with
      | [] => none
      | ch :: _ =>
        if ch = '0' ∨ ch = '9' then
          let run := (l.drop 1).takeWhile (fun x => x == ch)
          let rest := (l.drop 1).dropWhile (fun x => x == ch)
          -- The run of digits must end here: only a fractional second is all digits.
          if !startsWithDigit rest then
            some ([], if ch = '0' then .stdFracSecond0 run.length c
                      else .stdFracSecond9 run.length c, rest)
          else none
        else none
    else none

/-- The function `nextStdChunk` of package `time`: the text before the first
layout element, that element, and the text after it. With no element in the
layout the whole layout is the text before, and the element is `stdNone`. -/
def nextStdChunk : List Char → List Char × Std × List Char
  | [] => ([], .stdNone, [])
  | c :: rest =>
    match stdAt (c :: rest) with
    | some (lit, std, suffix) => (lit, std, suffix)
    | none =>
      let r := nextStdChunk rest
      (c :: r.1, r.2.1, r.2.2)

/-- English month names of package `time`. -/
def longMonthNames : Nat → String
  | 1 => "January" | 2 => "February" | 3 => "March" | 4 => "April"
  | 5 => "May" | 6 => "June" | 7 => "July" | 8 => "August"
  | 9 => "September" | 10 => "October" | 11 => "November" | _ => "December"

/-- English day names of package `time`, Sunday = 0. -/
def longDayNames : Nat → String
  | 0 => "Sunday" | 1 => "Monday" | 2 => "Tuesday" | 3 => "Wednesday"
  | 4 => "Thursday" | 5 => "Friday" | _ => "Saturday"

/-- The function `appendNano` of package `time`: the separator and the first
`digits` of the nine digits of the nanosecond, with trailing zeros (and a bare
separator) removed for the `9` form. -/
def appendNano (nanosec : Nat) (digits : Nat) (sep : Char) (trim : Bool) : List Char :=
  if trim && (digits == 0 || nanosec == 0) then []
  else
    let ds := (appendInt nanosec 9).take digits
    if trim then
      let kept := (ds.reverse.dropWhile (fun c => c == '0')).reverse
      if kept.isEmpty then [] else sep :: kept
    else sep :: ds

/-- What one layout element contributes to the output of `Time.AppendFormat`,
for a UTC instant (zone name `UTC`, offset zero). -/
def appendStd (t : Time) : Std → List Char
  | .stdNone => []
  | .stdYear => appendInt ((t.Year % 100 : Nat) : Int) 2
  | .stdLongYear => appendInt t.Year 4
  | .stdMonth => (longMonthNames t.Month).toList.take 3
  | .stdLongMonth => (longMonthNames t.Month).toList
  | .stdNumMonth => appendInt t.Month 0
  | .stdZeroMonth => appendInt t.Month 2
  | .stdWeekDay => (longDayNames t.Weekday).toList.take 3
  | .stdLongWeekDay => (longDayNames t.Weekday).toList
  | .stdDay => appendInt t.Day 0
  | .stdUnderDay => (if t.Day < 10 then [' '] else []) ++ appendInt t.Day 0
  | .stdZeroDay => appendInt t.Day 2
  | .stdUnderYearDay =>
    (if t.YearDay < 100 then (if t.YearDay < 10 then [' ', ' '] else [' ']) else [])
      ++ appendInt t.YearDay 0
  | .stdZeroYearDay => appendInt t.YearDay 3
  | .stdHour => appendInt t.Hour 2
  | .stdHour12 => appendInt ((if t.Hour % 12 = 0 then 12 else t.Hour % 12 : Nat) : Int) 0
  | .stdZeroHour12 => appendInt ((if t.Hour % 12 = 0 then 12 else t.Hour % 12 : Nat) : Int) 2
  | .stdMinute => appendInt t.Minute 0
  | .stdZeroMinute => appendInt t.Minute 2
  | .stdSecond => appendInt t.Second 0
  | .stdZeroSecond => appendInt t.Second 2
  | .stdPM => if t.Hour ≥ 12 then "PM".toList else "AM".toList
  | .stdpm => if t.Hour ≥ 12 then "pm".toList else "am".toList
  | .stdTZ => "UTC".toList
  | .stdISO8601TZ => "Z".toList
  | .stdISO8601SecondsTZ => "Z".toList
  | .stdISO8601ShortTZ => "Z".toList
  | .stdISO8601ColonTZ => "Z".toList
  | .stdISO8601ColonSecondsTZ => "Z".toList
  | .stdNumTZ => "+0000".toList
  | .stdNumSecondsTz => "+000000".toList
  | .stdNumShortTZ => "+00".toList
  | .stdNumColonTZ => "+00:00".toList
  | .stdNumColonSecondsTZ => "+00:00:00".toList
  | .stdFracSecond0 digits sep => appendNano t.Nanosecond digits sep false
  | .stdFracSecond9 digits sep => appendNano t.Nanosecond digits sep true

/-- The loop of `Time.AppendFormat`: copy the text before the next layout
element, stop when there is no element, otherwise write the element and go on
with the rest of the layout. Every round with an element consumes at least one
character of the layout, so `fuel = length + 1` rounds suffice. -/
def appendFormat (t : Time) : Nat → List Char → List Char
  | 0, _ => []
  | fuel + 1, layout =>
    match layout with
    | [] => []
    | _ =>
      let r := nextStdChunk layout
      match r.2.1 with
      | .stdNone => r.1
      | std => r.1 ++ appendStd t std ++ appendFormat t fuel r.2.2

/-- The method `Time.Format`. -/
def Time.Format (t : Time) (layout : String) : String :=
  String.mk (appendFormat t (layout.length + 1) layout.toList)

/-! ## `mindware_emitter.go` -/

/-- Layout of the date column. Spec: MM/DD/YYYY -/
def DATE_FORMAT : String := "01/02/2006"

/-- Layout of the time column. Spec: HH:MM:SS.fff AM/PM -/
def TIME_FORMAT : String := "03:04:05.000 PM"

/-- The struct `mindwareEvent`. -/
structure mindwareEvent where
  EventType : String
  Name : String
  Timestamp : Time
  deriving DecidableEq, Repr

/-- An `*os.File` open for writing: the path it was created at, the bytes the
file holds, and whether the handle has been closed. Writes go to the end of
the file, since the handle is the only writer and starts at offset 0 of an
empty file. -/
structure OsFile where
  name : String
  data : String
  closed : Bool
  deriving DecidableEq, Repr

/-- The error `os.ErrClosed`. -/
def ErrClosed : GoError := ⟨"file already closed"⟩

/-- What the operating system does with the bytes of one write: it takes them
all, or it takes the first `taken` of them and then fails with `err` (a full
disk, a quota, a device that refuses). -/
inductive WriteResult where
  | full
  | short (taken : Nat) (err : GoError)
  deriving DecidableEq, Repr

/-- The function `os.Create`: the file is created, or truncated when it exists,
and opened; otherwise the error of the operating system is returned. The
argument `res` is what the operating system answers. -/
def osCreate (name : String) (res : Except GoError Unit) : Except GoError OsFile :=
  match res with
  | .error e => .error e
  | .ok _ => .ok { name := name, data := "", closed := false }

/-- The method `File.Write`; `r` is what the operating system does with the
bytes. On a closed handle nothing is written and `os.ErrClosed` is returned; on
an open one the bytes that the operating system takes are appended, and its
error, if any, is returned. -/
def OsFile.Write (f : OsFile) (p : String) (r : WriteResult) : OsFile × Option GoError :=
  if f.closed then (f, some ErrClosed)
  else
    match r with
    | .full => ({ f with data := f.data ++ p }, none)
    | .short taken err => ({ f with data := f.data ++ String.mk (p.data.take taken) }, some err)

/-- The method `File.Close`. -/
def OsFile.Close (f : OsFile) : OsFile × Option GoError :=
  if f.closed then (f, some ErrClosed) else ({ f with closed := true }, none)

/-- The struct `MindwareFile`. The field `mutex` has no state of its own
between two calls (every call that locks it unlocks it); it appears in the
interleaving model below as the `mutex` of `Shared`. -/
structure MindwareFile where
  file : OsFile
  events : List mindwareEvent
  deriving DecidableEq, Repr

/-- The function `check`: panic when the error is not nil. -/
def check (e : Option GoError) : Outcome Unit :=
  match e with
  | some err => .panicked err
  | none => .returned ()

/-- Sequencing of two calls: the second is made when the first returns. -/
def Outcome.bind {α β : Type} (o : Outcome α) (k : α → Outcome β) : Outcome β :=
  match o with
  | .returned a => k a
  | .panicked e => .panicked e
  | .exited s => .exited s

/-- The text that `fmt.Fprintf(f.file, "%s\t%s\t%s\t%s\n", ...)` of `WriteEvent`
formats for an event. -/
def formatEvent (e : mindwareEvent) : String :=
  e.EventType ++ "\t" ++ e.Name ++ "\t" ++ e.Timestamp.Format DATE_FORMAT ++ "\t"
    ++ e.Timestamp.Format TIME_FORMAT ++ "\n"

/-- Line 71 of `WriteEvent`: `f.events = append(f.events, e)`. -/
def MindwareFile.pushEvent (f : MindwareFile) (e : mindwareEvent) : MindwareFile :=
  { f with events := f.events ++ [e] }

/-- Lines 72-76 of `WriteEvent`: the `Fprintf`, whose results (byte count and
error) are discarded; `r` is what the operating system does with the write. -/
def MindwareFile.printEvent (f : MindwareFile) (e : mindwareEvent) (r : WriteResult) :
    MindwareFile :=
  { f with file := (f.file.Write (formatEvent e) r).1 }

/-- The method `WriteEvent`; `now` is the value of `time.Now().UTC()` and `r`
what the operating system does with the write. No statement of the method can
panic or exit, and no error leaves it: the call returns. The lock is free when
a single caller arrives and is free again when it leaves. -/
def MindwareFile.WriteEvent (f : MindwareFile) (eventType name : String) (now : Time)
    (r : WriteResult) : Outcome MindwareFile :=
  let e : mindwareEvent := { EventType := eventType, Name := name, Timestamp := now }
  .returned ((f.pushEvent e).printEvent e r)

/-- The method `writeHeader`; `w1` is what the operating system does with the
write of the header (the `Fprintln`, whose results are discarded), `now` and
`w2` are the clock reading and the write of its `WriteEvent`. -/
def MindwareFile.writeHeader (f : MindwareFile) (now : Time) (w1 w2 : WriteResult) :
    Outcome MindwareFile :=
  let f1 : MindwareFile :=
    { f with file := (f.file.Write ("Event Type\tName\tDate\tTime" ++ "\n") w1).1 }
  f1.WriteEvent "Start Event" "" now w2

/-- The error of a result of `os.Create`, nil when there is none. -/
def errOf {α : Type} (r : Except GoError α) : Option GoError :=
  match r with
  | .error e => some e
  | .ok _ => none

/-- The function `NewMindwareFile`; `created` is the answer of the operating
system to `os.Create`, `now` the clock reading of the Start Event, `w1` and
`w2` what the operating system does with the two writes. -/
def NewMindwareFile (name : String) (created : Except GoError Unit) (now : Time)
    (w1 w2 : WriteResult) : Outcome MindwareFile :=
  let r := osCreate name created
  match check (errOf r), r with
  | .returned _, .ok f => MindwareFile.writeHeader { file := f, events := [] } now w1 w2
  | .returned _, .error e => .panicked e
  | .panicked e, _ => .panicked e
  | .exited s, _ => .exited s

/-- The method `Close`. -/
def MindwareFile.Close (f : MindwareFile) : MindwareFile × Option GoError :=
  ({ f with file := f.file.Close.1 }, f.file.Close.2)

/-- One call of `WriteEvent` as it happens: event type, name, the instant the
call reads from the clock, and what the operating system does with its write. -/
structure AppendCall where
  eventType : String
  name : String
  instant : Time
  result : WriteResult
  deriving DecidableEq, Repr

/-- A sequence of `WriteEvent` calls made one after another. -/
def MindwareFile.writeAll (f : MindwareFile) (calls : List AppendCall) : Outcome MindwareFile :=
  calls.foldl
    (fun o c => o.bind (fun g => g.WriteEvent c.eventType c.name c.instant c.result))
    (.returned f)

/-! ## Reading a log file back: lines and tab-separated columns -/

/-- The lines of a text: each newline ends a line; text after the last newline,
if any, is a last, unterminated line. -/
def splitLines : List Char → List (List Char)
  | [] => []
  | c :: cs =>
    if c = '\n' then [] :: splitLines cs
    else
      match splitLines cs with
      | [] => [[c]]
      | l :: ls => (c :: l) :: ls

/-- The lines of a file. -/
def lines (s : String) : List String := (splitLines s.data).map String.mk

/-- Exactly `w` decimal digits: the last `w` digits of `n`. -/
def fixedDigits : Nat → Nat → List Char
  | 0, _ => []
  | w + 1, n => fixedDigits w (n / 10) ++ [digitChar n]

/-- The columns of a line: the pieces between tabs. -/
def splitTabs : List Char → List (List Char)
  | [] => [[]]
  | c :: cs =>
    if c = '\t' then [] :: splitTabs cs
    else
      match splitTabs cs with
      | [] => [[c]]
      | l :: ls => (c :: l) :: ls

/-- The columns of a line of the log. -/
def columns (line : String) : List String := (splitTabs line.data).map String.mk

/-- The first column of a line: its event type. -/
def eventTypeOf (line : String) : Option String := (columns line)[0]?

/-- The second column of a line: its name. -/
def nameOf (line : String) : Option String := (columns line)[1]?

/-- The header line of a Mindware event file. -/
def headerLine : String := "Event Type\tName\tDate\tTime"

/-- The line that a call leaves in the file: `formatEvent` without its newline. -/
def recordLine (eventType name : String) (t : Time) : String :=
  eventType ++ "\t" ++ name ++ "\t" ++ t.Format DATE_FORMAT ++ "\t" ++ t.Format TIME_FORMAT

/-- The text made of the given lines, each ended by a newline. -/
def unlines : List String → String
  | [] => ""
  | l :: ls => l ++ "\n" ++ unlines ls

/-- Exactly two decimal digits. -/
def twoDigits (n : Nat) : String := String.mk [digitChar (n / 10), digitChar n]

/-- Exactly three decimal digits. -/
def threeDigits (n : Nat) : String :=
  String.mk [digitChar (n / 100), digitChar (n / 10), digitChar n]

/-- Exactly four decimal digits. -/
def fourDigits (n : Nat) : String :=
  String.mk [digitChar (n / 1000), digitChar (n / 100), digitChar (n / 10), digitChar n]

/-- The hour on the 12-hour clock, 1..12. -/
def hour12 (t : Time) : Nat := if t.Hour % 12 = 0 then 12 else t.Hour % 12

/-- The date column as the specification words it: MM/DD/YYYY. -/
def dateMMDDYYYY (t : Time) : String :=
  twoDigits t.Month ++ "/" ++ twoDigits t.Day ++ "/" ++ fourDigits t.Year

/-- The time column as the specification words it: HH:MM:SS.mmm AM/PM. -/
def timeHHMMSSmmm (t : Time) : String :=
  twoDigits (hour12 t) ++ ":" ++ twoDigits t.Minute ++ ":" ++ twoDigits t.Second ++ "."
    ++ threeDigits (t.Nanosecond / 1000000) ++ " " ++ (if t.Hour < 12 then "AM" else "PM")

/-! ## `main.go`: the three handler loops -/

/-- The struct `ClientMessage`; `KeyCode` is a byte. -/
structure ClientMessage where
  SubjectID : String
  Action : String
  Content : String
  KeyCode : Nat
  deriving DecidableEq, Repr

/-- The struct `ServerMessage`. -/
structure ServerMessage where
  Kind : String
  Message : String
  deriving DecidableEq, Repr

/-- Modelled from the spec: the record `Config`, declared outside the source
files at hand; `main.go` reads only its run instructions ("one Status Message
carrying run instructions"). -/
structure Config where
  Instructions : String
  deriving DecidableEq, Repr

/-- A websocket connection (`*websocket.Conn`), named by a number. -/
structure Conn where
  id : Nat
  deriving DecidableEq, Repr

/-- Modelled from the spec: the session `PsychTimer`, declared outside the
source files at hand ("a new Session bound to that channel"); kept are the
fields that `main.go` reads, `config` and `conn`. Its field `ch` is always the
global `serverChan`. -/
structure PsychTimer where
  config : Config
  conn : Conn
  deriving DecidableEq, Repr

/-- Modelled from the spec: the constructor `NewPsychTimer`, defined outside the
source files at hand, which binds the new session to the configuration and to
the connection it is given. -/
def NewPsychTimer (c : Config) (ws : Conn) : PsychTimer := { config := c, conn := ws }

/-- A JSON object whose members are strings, as (name, value) pairs in the
order they are written. -/
abbrev JsonObject := List (String × String)

/-- What `encoding/json` makes of a `ServerMessage`, following the tags
`json:"kind,omitempty"` and `json:"message,omitempty"`: a member is left out
when its string is empty. -/
def marshalServerMessage (m : ServerMessage) : JsonObject :=
  (if m.Kind = "" then [] else [("kind", m.Kind)])
    ++ (if m.Message = "" then [] else [("message", m.Message)])

/-- The globals of `main.go` and what has gone over the channels and the
connections: `client`; every message sent so far on `actionChan` and on
`serverChan`, oldest first; every JSON text written to a connection, oldest
first; and the connections that have been closed. -/
structure Process where
  client : Option PsychTimer
  actionChan : List ClientMessage
  serverChan : List ServerMessage
  sent : List (Conn × JsonObject)
  closed : List Conn
  deriving DecidableEq, Repr

/-- A call that the dispatcher makes on the session engine, with the receiver
it is made on (the value of the global `client`, `none` for nil). `goRunOne`
is `go client.RunOne(...)`: the call is started as a goroutine of its own. -/
inductive EngineCall where
  | goRunOne (recv : Option PsychTimer) (subjectID : String)
  | Cancel (recv : Option PsychTimer) (subjectID : String)
  | AddKey (recv : Option PsychTimer) (content : String) (keyCode : Nat)
  | Continue (recv : Option PsychTimer)
  deriving DecidableEq, Repr

/-- The `switch msg.Action` of `handleActions`: the engine calls made for one
message. -/
def handleAction (client : Option PsychTimer) (msg : ClientMessage) : List EngineCall :=
  if msg.Action = "START" then [.goRunOne client msg.SubjectID]
  else if msg.Action = "CANCEL" then [.Cancel client msg.SubjectID]
  else if msg.Action = "KEY" then [.AddKey client msg.Content msg.KeyCode]
  else if msg.Action = "CONTINUE" then [.Continue client]
  else []

/-- The loop of `handleActions` run on the messages it takes from `actionChan`,
in the order it takes them: the engine calls it makes, in order. The loop
itself never ends; each engine call is taken to return to it. -/
def handleActions (p : Process) : List ClientMessage → List EngineCall
  | [] => []
  | msg :: rest => handleAction p.client msg ++ handleActions p rest

/-- The read loop of `handleConnections` (lines 85-97) run on the results of
its successive `ws.ReadJSON` calls. The flag tells whether the loop has ended
(`break`); with no failed read it is still waiting for the next message. -/
def readLoop (p : Process) : List (Except GoError ClientMessage) → Process × Bool
  | [] => (p, false)
  | .error _ :: _ => ({ p with client := none }, true)
  | .ok msg :: rest => readLoop { p with actionChan := p.actionChan ++ [msg] } rest

/-- The function `handleConnections`. Arguments: the global configuration `c`,
the result of `upgrader.Upgrade`, and the results of the reads. The second
component tells how the call ended, `none` when it is still in its read loop. -/
def handleConnections (p : Process) (c : Config) (upgrade : Except GoError Conn)
    (reads : List (Except GoError ClientMessage)) : Process × Option (Outcome Unit) :=
  match upgrade with
  | .error _ =>
    -- log.Fatal(err): the error is logged and the process exits with status 1
    (p, some (.exited 1))
  | .ok ws =>
    let session := NewPsychTimer c ws
    let p1 : Process :=
      { p with client := some session,
               serverChan := p.serverChan
                 ++ [{ Kind := "INSTRUCTIONS", Message := session.config.Instructions }] }
    let r := readLoop p1 reads
    if r.2 then
      -- the deferred ws.Close()
      ({ r.1 with closed := r.1.closed ++ [ws] }, some (.returned ()))
    else (r.1, none)

/-- The error of a write on a closed connection. -/
def errConnClosed : GoError := ⟨"use of closed network connection"⟩

/-- The runtime error of a nil pointer dereference. -/
def errNilDereference : GoError := ⟨"invalid memory address or nil pointer dereference"⟩

/-- The method `Conn.WriteJSON`: on an open connection the JSON text of the
message is written; on a closed one an error is returned. -/
def WriteJSON (p : Process) (conn : Conn) (v : ServerMessage) : Process × Option GoError :=
  if conn ∈ p.closed then (p, some errConnClosed)
  else ({ p with sent := p.sent ++ [(conn, marshalServerMessage v)] }, none)

/-- The body of the loop of `handleServerMessages` for one message taken from
`serverChan`. Reading `client.conn` with `client` nil is a nil dereference. -/
def handleServerMessage (p : Process) (msg : ServerMessage) : Outcome Process :=
  match p.client with
  | none => .panicked errNilDereference
  | some session =>
    let r := WriteJSON p session.conn msg
    match r.2 with
    | some _ =>
      -- the error is logged and the connection closed
      .returned { r.1 with closed := r.1.closed ++ [session.conn] }
    | none => .returned r.1

/-- The loop of `handleServerMessages` run on the messages it takes from
`serverChan`, in the order it takes them. -/
def handleServerMessages (p : Process) : List ServerMessage → Outcome Process
  | [] => .returned p
  | msg :: rest =>
    match handleServerMessage p msg with
    | .returned q => handleServerMessages q rest
    | .panicked e => .panicked e
    | .exited s => .exited s

/-- The dispatch table of the specification (section 4.2): the engine call that
a command stands for when a session is bound, none for an action that is not
one of the four. -/
def tableCall (session : PsychTimer) (msg : ClientMessage) : Option EngineCall :=
  match msg.Action with
  | "START" => some (.goRunOne (some session) msg.SubjectID)
  | "CANCEL" => some (.Cancel (some session) msg.SubjectID)
  | "KEY" => some (.AddKey (some session) msg.Content msg.KeyCode)
  | "CONTINUE" => some (.Continue (some session))
  | _ => none

/-! ## Interleavings of concurrent `WriteEvent` calls

Several goroutines call `WriteEvent` on one log. Each call goes through the
statements of `WriteEvent` one at a time; a schedule says which goroutine makes
the next step, what the clock reads at that moment, and what the operating
system does with a write made in that step. The `Fprintf` hands its text to the
operating system in two write system calls (the loop of `File.Write`), so that
another goroutine can run between the two. -/

/-- Where a goroutine stands in its current call of `WriteEvent`. -/
inductive Pc where
  /-- Between two calls. -/
  | idle
  /-- Lines 65-69 are done: the event is built, its timestamp read from the clock. -/
  | captured (e : mindwareEvent)
  /-- Line 70 is done: the goroutine holds the mutex. -/
  | locked (e : mindwareEvent)
  /-- Line 71, first half: `f.events` has been read for the `append`. -/
  | loaded (e : mindwareEvent) (evs : List mindwareEvent)
  /-- Line 71 is done: the extended slice is stored in `f.events`. -/
  | appended (e : mindwareEvent)
  /-- Lines 72-76 under way: the first write system call has handed over `done`,
  the text `rest` is still to be written. -/
  | printing (e : mindwareEvent) (done rest : String)
  /-- Lines 72-76 are done: `Fprintf` has returned; `Unlock` comes next. -/
  | printed (e : mindwareEvent)
  deriving DecidableEq, Repr

/-- A goroutine that makes `WriteEvent` calls one after another: the calls it
has still to make, as (event type, name), and where it stands in the current
one. -/
structure Caller where
  todo : List (String × String)
  pc : Pc
  deriving DecidableEq, Repr

/-- One entry of a schedule: the goroutine that makes the next step, the clock
reading at that moment (used when the step reads the clock), the number of
bytes that the first write system call of an `Fprintf` takes (used when the
step is that call), and what the operating system does with the rest of the
text (used when the step is the second call). -/
structure Turn where
  who : Nat
  now : Time
  chunk : Nat
  result : WriteResult
  deriving DecidableEq, Repr

/-- The log shared by the goroutines: the `MindwareFile`, the goroutine that
holds its mutex if any, the goroutines, and two histories, oldest first: the
calls in the order in which their `Lock` returned, and the calls whose
`Fprintf` has returned, each with its goroutine. -/
structure Shared where
  f : MindwareFile
  mutex : Option Nat
  lockOrder : List (Nat × mindwareEvent)
  written : List (Nat × mindwareEvent)
  callers : Nat → Caller

/-- The start: nobody holds the mutex, nothing is written yet, goroutine `i`
has the calls `calls i` to make. -/
def Shared.start (f : MindwareFile) (calls : Nat → List (String × String)) : Shared :=
  { f := f, mutex := none, lockOrder := [], written := [],
    callers := fun i => { todo := calls i, pc := .idle } }

/-- One step of the goroutine `x.who`: the next statement of `WriteEvent`. A
goroutine with no call left does nothing, and one that waits in `Lock` for a
mutex that is held stays where it is. -/
def Shared.step (s : Shared) (x : Turn) : Shared :=
  match (s.callers x.who).pc with
  | .idle =>
    match (s.callers x.who).todo with
    | [] => s
    | call :: rest =>
      let e : mindwareEvent := { EventType := call.1, Name := call.2, Timestamp := x.now }
      { s with callers := Function.update s.callers x.who { todo := rest, pc := .captured e } }
  | .captured e =>
    match s.mutex with
    | some _ => s
    | none =>
      { s with mutex := some x.who,
               lockOrder := s.lockOrder ++ [(x.who, e)],
               callers := Function.update s.callers x.who
                            { s.callers x.who with pc := .locked e } }
  | .locked e =>
    let evs := s.f.events
    { s with callers := Function.update s.callers x.who
                          { s.callers x.who with pc := .loaded e evs } }
  | .loaded e evs =>
    { s with f := { s.f with events := evs ++ [e] },
             callers := Function.update s.callers x.who
                          { s.callers x.who with pc := .appended e } }
  | .appended e =>
    let done := String.mk ((formatEvent e).data.take x.chunk)
    let rest := String.mk ((formatEvent e).data.drop x.chunk)
    { s with f := { s.f with file := (s.f.file.Write done .full).1 },
             callers := Function.update s.callers x.who
                          { s.callers x.who with pc := .printing e done rest } }
  | .printing e _ rest =>
    { s with f := { s.f with file := (s.f.file.Write rest x.result).1 },
             written := s.written ++ [(x.who, e)],
             callers := Function.update s.callers x.who
                          { s.callers x.who with pc := .printed e } }
  | .printed _ =>
    { s with mutex := none,
             callers := Function.update s.callers x.who { s.callers x.who with pc := .idle } }

/-- A run under a schedule: the steps are made in the order of the schedule. -/
def Shared.run (s : Shared) (sched : List Turn) : Shared :=
  sched.foldl (fun st x => st.step x) s

/-- Whether a goroutine is between `Lock` and `Unlock`. -/
def Pc.inCritical : Pc → Bool
  | .idle => false
  | .captured _ => false
  | _ => true

/-- The call a goroutine has begun and whose `Fprintf` has not returned yet. -/
def Pc.inFlight : Pc → List (String × String)
  | .idle => []
  | .printed _ => []
  | .captured e => [(e.EventType, e.Name)]
  | .locked e => [(e.EventType, e.Name)]
  | .loaded e _ => [(e.EventType, e.Name)]
  | .appended e => [(e.EventType, e.Name)]
  | .printing e _ _ => [(e.EventType, e.Name)]

/-- The event of the call in progress, if any. -/
def Pc.event : Pc → Option mindwareEvent
  | .idle => none
  | .captured e => some e
  | .locked e => some e
  | .loaded e _ => some e
  | .appended e => some e
  | .printing e _ _ => some e
  | .printed e => some e

/-- The event that is in `f.events` while its `Fprintf` has not returned: that
of the holder of the mutex once it has stored the extended slice. -/
def Shared.unprinted (s : Shared) : List mindwareEvent :=
  match s.mutex with
  | none => []
  | some i =>
    match (s.callers i).pc with
    | .appended e => [e]
    | .printing e _ _ => [e]
    | _ => []

/-- The call that has taken the mutex and whose `Fprintf` has not returned. -/
def Shared.holding (s : Shared) : List (Nat × mindwareEvent) :=
  match s.mutex with
  | none => []
  | some i =>
    match (s.callers i).pc with
    | .locked e => [(i, e)]
    | .loaded e _ => [(i, e)]
    | .appended e => [(i, e)]
    | .printing e _ _ => [(i, e)]
    | _ => []

/-- The beginning of a record that is in the file while the rest of it is
still to be written: what the holder of the mutex has handed over in the first
write system call of its `Fprintf`. -/
def Shared.inProgress (s : Shared) : String :=
  match s.mutex with
  | none => ""
  | some i =>
    match (s.callers i).pc with
    | .printing _ done _ => done
    | _ => ""

/-- The records that goroutine `i` has written, in the order they stand in the
file. -/
def Shared.writtenBy (s : Shared) (i : Nat) : List mindwareEvent :=
  (s.written.filter (fun x => x.1 == i)).map Prod.snd

/-- The text of the records written, in the order of the file. -/
def Shared.records (s : Shared) : List String :=
  s.written.map (fun x => recordLine x.2.EventType x.2.Name x.2.Timestamp)

/-- What holds of the shared log at every moment of every run that starts from
the open log `f0` with the calls `calls0` to make and in which the operating
system takes every write in full: the file is open and holds the text it
started with, then one whole record for each `Fprintf` that has returned, then
the beginning of the record that the holder of the mutex is writing; the two
parts of a record under way make up the record; whoever is between `Lock` and
`Unlock` holds the mutex, and the holder is there; `f.events` lists the events
in the order of the file, followed by the event of the holder when it is
stored and its `Fprintf` has not returned; the slice a goroutine has read for
its `append` is still `f.events`; the calls whose `Lock` has returned are, in
that order, the calls written followed by the one of the holder; and the calls
of every goroutine are those it has written, in order, then the one in flight,
then those it has still to make. -/
structure Shared.Inv (f0 : MindwareFile) (calls0 : Nat → List (String × String))
    (s : Shared) : Prop where
  isOpen : s.f.file.closed = false
  data : s.f.file.data = f0.file.data ++ unlines s.records ++ s.inProgress
  parts : ∀ i e done rest, (s.callers i).pc = .printing e done rest →
    done ++ rest = formatEvent e
  holder : ∀ i, (s.callers i).pc.inCritical = true → s.mutex = some i
  held : ∀ i, s.mutex = some i → (s.callers i).pc.inCritical = true
  events : s.f.events = f0.events ++ s.written.map Prod.snd ++ s.unprinted
  loaded : ∀ i e evs, (s.callers i).pc = .loaded e evs → evs = s.f.events
  locks : s.lockOrder = s.written ++ s.holding
  order : ∀ i, calls0 i
    = (s.writtenBy i).map (fun e => (e.EventType, e.Name)) ++ (s.callers i).pc.inFlight
        ++ (s.callers i).todo

/-- What holds of the timestamps when the clock never goes back and has not
read more than `hi` so far: no timestamp exceeds `hi`, the records of each
goroutine stand in the file with timestamps that never decrease, and the event
of the call a goroutine is in is not older than the records it has written. -/
structure Shared.Timed (hi : Nat) (s : Shared) : Prop where
  writtenLe : ∀ x ∈ s.written, x.2.Timestamp.unixNano ≤ hi
  flightLe : ∀ i e, (s.callers i).pc.event = some e → e.Timestamp.unixNano ≤ hi
  sorted : ∀ i, ((s.writtenBy i).map (fun e => e.Timestamp.unixNano)).Pairwise (· ≤ ·)
  before : ∀ i e, (s.callers i).pc.event = some e →
    ∀ x ∈ s.writtenBy i, x.Timestamp.unixNano ≤ e.Timestamp.unixNano

/-- The shared log after the goroutines, starting from the log `f0` with the
calls `calls0` to make, have run under the schedule `sched`. -/
def Shared.after (f0 : MindwareFile) (calls0 : Nat → List (String × String))
    (sched : List Turn) : Shared :=
  (Shared.start f0 calls0).run sched

/-- The clock readings of a schedule, in order. -/
def clockOf (sched : List Turn) : List Nat := sched.map (fun x => x.now.unixNano)

/-- A turn of goroutine `who` at `nano` nanoseconds after the epoch, in which
the first write system call of an `Fprintf` takes 4 bytes and the operating
system takes every write in full. -/
def turnOf (who nano : Nat) : Turn :=
  { who := who, now := Time.ofNano nano, chunk := 4, result := .full }

/-- The seven steps of one call of `WriteEvent` made by goroutine `i` with no
other goroutine in between: read the clock, `Lock`, read and store `f.events`,
the two write system calls of `Fprintf`, `Unlock`. -/
def soloCall (i : Nat) (now : Time) (chunk : Nat) : List Turn :=
  List.replicate 7 { who := i, now := now, chunk := chunk, result := .full }

/-! ## Lemmas on decimal digits -/

theorem digitChar_mod (n : Nat) : digitChar (n % 10) = digitChar n := by
  simp [digitChar]

theorem fixedDigits_zero (w : Nat) : fixedDigits w 0 = List.replicate w '0' := by
  induction w with
  | zero => rfl
  | succ w ih =>
    have h : digitChar 0 = '0' := by decide
    simp [fixedDigits, ih, h, List.replicate_succ']

theorem decimalDigits_pad (w : Nat) : ∀ n fuel : Nat, n < 10 ^ (w + 1) → n < 10 ^ (fuel + 1) →
    List.replicate (w + 1 - (decimalDigits (fuel + 1) n).length) '0'
      ++ decimalDigits (fuel + 1) n = fixedDigits (w + 1) n := by
  induction w with
  | zero =>
    intro n fuel hn _
    have h10 : n < 10 := by simpa using hn
    simp [decimalDigits, h10, fixedDigits]
  | succ w ih =>
    intro n fuel hn hf
    by_cases h10 : n < 10
    · have hz : n / 10 = 0 := by omega
      have h0 : digitChar 0 = '0' := by decide
      simp [decimalDigits, h10, fixedDigits, hz, fixedDigits_zero, List.replicate_succ', h0]
    · cases fuel with
      | zero => exact absurd (by simpa using hf) h10
      | succ fuel =>
        have h1 : n / 10 < 10 ^ (w + 1) := by
          rw [Nat.div_lt_iff_lt_mul (by norm_num)]
          calc n < 10 ^ (w + 1 + 1) := hn
            _ = 10 ^ (w + 1) * 10 := by ring
        have h2 : n / 10 < 10 ^ (fuel + 1) := by
          rw [Nat.div_lt_iff_lt_mul (by norm_num)]
          calc n < 10 ^ (fuel + 1 + 1) := hf
            _ = 10 ^ (fuel + 1) * 10 := by ring
        have key := ih (n / 10) fuel h1 h2
        rw [decimalDigits, if_neg h10]
        rw [fixedDigits, ← key, digitChar_mod]
        simp [List.length_append]

theorem appendInt_fixed (w n : Nat) (hn : n < 10 ^ (w + 1)) :
    appendInt (n : Int) (w + 1) = fixedDigits (w + 1) n := by
  have hf : n < 10 ^ (n + 1) :=
    lt_trans (Nat.lt_pow_self (by norm_num) n) (Nat.pow_lt_pow_right (by norm_num) (by omega))
  have h := decimalDigits_pad w n n hn hf
  simp only [appendInt, Int.natAbs_ofNat]
  have hneg : ¬ ((n : Int) < 0) := by omega
  simp [hneg, h]


/-! ## The two layouts of the log -/

theorem appendFormat_step (t : Time) (fuel : Nat) (layout lit suffix : List Char) (std : Std)
    (h : nextStdChunk layout = (lit, std, suffix)) (hne : layout ≠ [])
    (hs : std ≠ Std.stdNone) :
    appendFormat t (fuel + 1) layout = lit ++ appendStd t std ++ appendFormat t fuel suffix := by
  cases layout with
  | nil => exact absurd rfl hne
  | cons c cs =>
    simp only [appendFormat, h]

theorem appendFormat_nil (t : Time) (fuel : Nat) : appendFormat t fuel [] = [] := by
  cases fuel <;> rfl

theorem chunk_date_month :
    nextStdChunk "01/02/2006".toList = ([], Std.stdZeroMonth, "/02/2006".toList) := by decide

theorem chunk_date_day :
    nextStdChunk "/02/2006".toList = (['/'], Std.stdZeroDay, "/2006".toList) := by decide

theorem chunk_date_year :
    nextStdChunk "/2006".toList = (['/'], Std.stdLongYear, []) := by decide

theorem chunk_time_hour :
    nextStdChunk "03:04:05.000 PM".toList = ([], Std.stdZeroHour12, ":04:05.000 PM".toList) := by
  decide

theorem chunk_time_minute :
    nextStdChunk ":04:05.000 PM".toList = ([':'], Std.stdZeroMinute, ":05.000 PM".toList) := by
  decide

theorem chunk_time_second :
    nextStdChunk ":05.000 PM".toList = ([':'], Std.stdZeroSecond, ".000 PM".toList) := by
  decide

theorem chunk_time_frac :
    nextStdChunk ".000 PM".toList = ([], Std.stdFracSecond0 3 '.', " PM".toList) := by
  decide

theorem chunk_time_pm :
    nextStdChunk " PM".toList = ([' '], Std.stdPM, []) := by
  decide

theorem format_DATE_FORMAT (t : Time) :
    t.Format DATE_FORMAT
      = String.mk (appendInt t.Month 2 ++ '/' :: (appendInt t.Day 2 ++ '/' :: appendInt t.Year 4)) := by
  have hl : DATE_FORMAT.length + 1 = 10 + 1 := by decide
  unfold Time.Format
  rw [hl]
  show String.mk (appendFormat t (10 + 1) "01/02/2006".toList) = _
  rw [appendFormat_step t _ _ _ _ _ chunk_date_month (by decide) (by decide),
    appendFormat_step t _ _ _ _ _ chunk_date_day (by decide) (by decide),
    appendFormat_step t _ _ _ _ _ chunk_date_year (by decide) (by decide),
    appendFormat_nil]
  simp [appendStd]

theorem format_TIME_FORMAT (t : Time) :
    t.Format TIME_FORMAT
      = String.mk (appendInt (hour12 t) 2 ++ ':' :: (appendInt t.Minute 2 ++ ':' ::
          (appendInt t.Second 2 ++ (appendNano t.Nanosecond 3 '.' false ++ ' ' ::
            (if t.Hour ≥ 12 then "PM".toList else "AM".toList))))) := by
  have hl : TIME_FORMAT.length + 1 = 15 + 1 := by decide
  unfold Time.Format
  rw [hl]
  show String.mk (appendFormat t (15 + 1) "03:04:05.000 PM".toList) = _
  rw [appendFormat_step t _ _ _ _ _ chunk_time_hour (by decide) (by decide),
    appendFormat_step t _ _ _ _ _ chunk_time_minute (by decide) (by decide),
    appendFormat_step t _ _ _ _ _ chunk_time_second (by decide) (by decide),
    appendFormat_step t _ _ _ _ _ chunk_time_frac (by decide) (by decide),
    appendFormat_step t _ _ _ _ _ chunk_time_pm (by decide) (by decide),
    appendFormat_nil]
  simp [appendStd, hour12]

/-! ## Ranges of the calendar and clock fields -/

theorem absYearDay_yday_le (d : Nat) : (absYearDay d).2 ≤ 365 := by
  simp only [absYearDay]
  omega

theorem leap_arith (a d0 : Nat) (h0 : d0 < 146097) :
    let n1 := d0 / 36524
    let d1 := d0 - 36524 * (n1 - n1 / 4)
    let n2 := d1 / 1461
    let d2 := d1 - 1461 * n2
    let n3 := d2 / 365
    let year := 400 * a + 100 * (n1 - n1 / 4) + 4 * n2 + (n3 - n3 / 4) + 1
    d2 - 365 * (n3 - n3 / 4) ≤ 364 ∨
      (year % 4 = 0 ∧ (¬ year % 100 = 0 ∨ year % 400 = 0)) := by
  intro n1 d1 n2 d2 n3 year
  have hn1 : n1 ≤ 4 := by omega
  have hn3 : n3 ≤ 4 := by omega
  have hn2 : n2 ≤ 24 := by omega
  interval_cases hv1 : n1 <;> interval_cases hv3 : n3 <;> omega

theorem absYearDay_leap (d : Nat) : (absYearDay d).2 ≤ 364 ∨ isLeap (absYearDay d).1 = true := by
  have h := leap_arith (d / 146097) (d - 146097 * (d / 146097)) (by omega)
  simp only [absYearDay, isLeap, Bool.and_eq_true, Bool.or_eq_true, beq_iff_eq, bne_iff_ne, ne_eq]
  exact h

set_option maxRecDepth 100000 in
theorem absMonthDay_bounds : ∀ leap : Bool, ∀ yday : Nat, yday < 366 →
    (yday ≤ 364 ∨ leap = true) →
    1 ≤ (absMonthDay leap yday).1 ∧ (absMonthDay leap yday).1 ≤ 12 ∧
    1 ≤ (absMonthDay leap yday).2 ∧ (absMonthDay leap yday).2 ≤ 31 := by
  decide

theorem month_day_bounds (t : Time) :
    1 ≤ t.Month ∧ t.Month ≤ 12 ∧ 1 ≤ t.Day ∧ t.Day ≤ 31 := by
  have h := absYearDay_yday_le (unixToInternalDays + t.unixSec / 86400)
  have h2 := absYearDay_leap (unixToInternalDays + t.unixSec / 86400)
  exact absMonthDay_bounds _ _ (Nat.lt_succ_of_le h) h2

theorem clock_bounds (t : Time) :
    t.Hour < 24 ∧ t.Minute < 60 ∧ t.Second < 60 ∧ t.Nanosecond < 1000000000 := by
  simp only [Time.Hour, Time.Minute, Time.Second, Time.Nanosecond]
  omega

theorem hour12_bounds (t : Time) : 1 ≤ hour12 t ∧ hour12 t ≤ 12 := by
  simp only [hour12]
  split <;> omega

/-! ## The layouts in the words of the specification -/

theorem date_text (m d y : Nat) (hm : m < 100) (hd : d < 100) (hy : y < 10000) :
    String.mk (appendInt m 2 ++ '/' :: (appendInt d 2 ++ '/' :: appendInt y 4))
      = twoDigits m ++ "/" ++ twoDigits d ++ "/" ++ fourDigits y := by
  rw [appendInt_fixed 1 m (by norm_num; omega), appendInt_fixed 1 d (by norm_num; omega),
    appendInt_fixed 3 y (by norm_num; omega)]
  apply String.ext
  simp [twoDigits, fourDigits, fixedDigits, Nat.div_div_eq_div_mul]

theorem appendNano_three (ns : Nat) (h : ns < 1000000000) :
    appendNano ns 3 '.' false = '.' :: (threeDigits (ns / 1000000)).data := by
  simp only [appendNano, Bool.false_and, Bool.false_eq_true, if_false]
  rw [appendInt_fixed 8 ns (by norm_num; omega)]
  simp [threeDigits, fixedDigits, Nat.div_div_eq_div_mul]

theorem time_text (h m s ns : Nat) (b : Bool) (hh : h < 100) (hm : m < 100) (hs : s < 100)
    (hns : ns < 1000000000) :
    String.mk (appendInt h 2 ++ ':' :: (appendInt m 2 ++ ':' ::
          (appendInt s 2 ++ (appendNano ns 3 '.' false ++ ' ' ::
            (if b then "PM".toList else "AM".toList)))))
      = twoDigits h ++ ":" ++ twoDigits m ++ ":" ++ twoDigits s ++ "."
          ++ threeDigits (ns / 1000000) ++ " " ++ (if b then "PM" else "AM") := by
  rw [appendInt_fixed 1 h (by norm_num; omega), appendInt_fixed 1 m (by norm_num; omega),
    appendInt_fixed 1 s (by norm_num; omega), appendNano_three ns hns]
  apply String.ext
  cases b <;> simp [twoDigits, threeDigits, fixedDigits]

theorem year_le (t : Time) : t.Year ≤ 9999 := by
  have h := t.inRange
  have hu : unixToInternalDays = 719162 := by decide
  simp only [Time.Year, Time.date, absDate, absYearDay, Time.unixSec, hu]
  omega

theorem format_date_spec (t : Time) : t.Format DATE_FORMAT = dateMMDDYYYY t := by
  rw [format_DATE_FORMAT]
  have hb := month_day_bounds t
  have hy := year_le t
  exact date_text t.Month t.Day t.Year (by omega) (by omega) (by omega)

theorem format_time_spec (t : Time) : t.Format TIME_FORMAT = timeHHMMSSmmm t := by
  rw [format_TIME_FORMAT]
  have hb := clock_bounds t
  have hh := hour12_bounds t
  have key := time_text (hour12 t) t.Minute t.Second t.Nanosecond (decide (t.Hour ≥ 12))
    (by omega) (by omega) (by omega) hb.2.2.2
  simp only [decide_eq_true_eq] at key
  rw [key]
  unfold timeHHMMSSmmm
  by_cases h12 : t.Hour < 12
  · have : ¬ t.Hour ≥ 12 := by omega
    simp only [h12, this, if_true, if_false]
  · have : t.Hour ≥ 12 := by omega
    simp only [h12, this, if_true, if_false]

/-! ## Characters of the two formatted columns -/

theorem digitChar_toNat (n : Nat) : 48 ≤ (digitChar n).toNat := by
  have h : n % 10 < 10 := Nat.mod_lt _ (by norm_num)
  unfold digitChar
  generalize n % 10 = k at h
  interval_cases k <;> decide

theorem decimalDigits_toNat (fuel n : Nat) : ∀ c ∈ decimalDigits fuel n, 32 ≤ c.toNat := by
  induction fuel generalizing n with
  | zero => intro c hc; simp [decimalDigits] at hc
  | succ fuel ih =>
    intro c hc
    rw [decimalDigits] at hc
    split at hc
    · simp only [List.mem_singleton] at hc
      subst hc
      have := digitChar_toNat n
      omega
    · simp only [List.mem_append, List.mem_singleton] at hc
      rcases hc with hc | hc
      · exact ih _ c hc
      · subst hc
        have := digitChar_toNat (n % 10)
        omega

theorem appendInt_toNat (x : Int) (w : Nat) : ∀ c ∈ appendInt x w, 32 ≤ c.toNat := by
  intro c hc
  simp only [appendInt, List.mem_append] at hc
  rcases hc with (hc | hc) | hc
  · split at hc
    · simp only [List.mem_singleton] at hc
      subst hc
      decide
    · simp at hc
  · have h0 := List.eq_of_mem_replicate hc
    subst h0
    decide
  · exact decimalDigits_toNat _ _ c hc

theorem appendNano_toNat (ns : Nat) : ∀ c ∈ appendNano ns 3 '.' false, 32 ≤ c.toNat := by
  intro c hc
  simp only [appendNano, Bool.false_and, Bool.false_eq_true, if_false, List.mem_cons] at hc
  rcases hc with hc | hc
  · subst hc; decide
  · exact appendInt_toNat _ _ c (List.mem_of_mem_take hc)

theorem format_date_toNat (t : Time) : ∀ c ∈ (t.Format DATE_FORMAT).data, 32 ≤ c.toNat := by
  intro c hc
  rw [format_DATE_FORMAT] at hc
  simp only [List.mem_append, List.mem_cons] at hc
  rcases hc with hc | hc | hc | hc | hc
  · exact appendInt_toNat _ _ c hc
  · subst hc; decide
  · exact appendInt_toNat _ _ c hc
  · subst hc; decide
  · exact appendInt_toNat _ _ c hc

theorem format_time_toNat (t : Time) : ∀ c ∈ (t.Format TIME_FORMAT).data, 32 ≤ c.toNat := by
  intro c hc
  rw [format_TIME_FORMAT] at hc
  simp only [List.mem_append, List.mem_cons] at hc
  rcases hc with hc | hc | hc | hc | hc | hc | hc | hc
  · exact appendInt_toNat _ _ c hc
  · subst hc; decide
  · exact appendInt_toNat _ _ c hc
  · subst hc; decide
  · exact appendInt_toNat _ _ c hc
  · exact appendNano_toNat _ c hc
  · subst hc; decide
  · split at hc <;> simp at hc <;> rcases hc with hc | hc <;> subst hc <;> decide


/-! ## Lines and columns of a text -/

theorem splitLines_append (l rest : List Char) (h : '\n' ∉ l) :
    splitLines (l ++ '\n' :: rest) = l :: splitLines rest := by
  induction l with
  | nil => simp [splitLines]
  | cons c cs ih =>
    have hc : c ≠ '\n' := fun e => h (by simp [e])
    have hcs : '\n' ∉ cs := fun e => h (List.mem_cons_of_mem _ e)
    simp [splitLines, hc, ih hcs]

theorem splitTabs_append (l rest : List Char) (h : '\t' ∉ l) :
    splitTabs (l ++ '\t' :: rest) = l :: splitTabs rest := by
  induction l with
  | nil => simp [splitTabs]
  | cons c cs ih =>
    have hc : c ≠ '\t' := fun e => h (by simp [e])
    have hcs : '\t' ∉ cs := fun e => h (List.mem_cons_of_mem _ e)
    simp [splitTabs, hc, ih hcs]

theorem splitTabs_none (l : List Char) (h : '\t' ∉ l) : splitTabs l = [l] := by
  induction l with
  | nil => simp [splitTabs]
  | cons c cs ih =>
    have hc : c ≠ '\t' := fun e => h (by simp [e])
    have hcs : '\t' ∉ cs := fun e => h (List.mem_cons_of_mem _ e)
    simp [splitTabs, hc, ih hcs]

theorem lines_unlines_append (ls : List String) (rest : String)
    (h : ∀ l ∈ ls, '\n' ∉ l.data) : lines (unlines ls ++ rest) = ls ++ lines rest := by
  induction ls with
  | nil => simp [unlines, lines]
  | cons l ls ih =>
    have hl : '\n' ∉ l.data := h l (List.mem_cons_self _ _)
    have ih2 := ih (fun x hx => h x (List.mem_cons_of_mem _ hx))
    simp only [lines] at ih2
    have e : (unlines (l :: ls) ++ rest).data = l.data ++ '\n' :: (unlines ls ++ rest).data := by
      simp [unlines, String.data_append]
    simp only [lines, e, splitLines_append _ _ hl, List.map_cons, ih2]
    simp

theorem lines_unlines (ls : List String) (h : ∀ l ∈ ls, '\n' ∉ l.data) :
    lines (unlines ls) = ls := by
  have := lines_unlines_append ls "" h
  simpa [lines, splitLines] using this

theorem unlines_append (a b : List String) : unlines (a ++ b) = unlines a ++ unlines b := by
  induction a with
  | nil => simp [unlines]
  | cons l ls ih => simp [unlines, ih, String.append_assoc]

theorem columns_recordLine (eventType name : String) (t : Time)
    (he : '\t' ∉ eventType.data) (hn : '\t' ∉ name.data) :
    columns (recordLine eventType name t)
      = [eventType, name, t.Format DATE_FORMAT, t.Format TIME_FORMAT] := by
  have hd : '\t' ∉ (t.Format DATE_FORMAT).data := fun hm => by
    have := format_date_toNat t _ hm
    revert this; decide
  have ht : '\t' ∉ (t.Format TIME_FORMAT).data := fun hm => by
    have := format_time_toNat t _ hm
    revert this; decide
  unfold recordLine
  generalize t.Format DATE_FORMAT = d at hd
  generalize t.Format TIME_FORMAT = tm at ht
  have e : (eventType ++ "\t" ++ name ++ "\t" ++ d ++ "\t" ++ tm).data
      = eventType.data ++ '\t' :: (name.data ++ '\t' :: (d.data ++ '\t' :: tm.data)) := by
    simp [String.data_append]
  simp only [columns, e, splitTabs_append _ _ he, splitTabs_append _ _ hn,
    splitTabs_append _ _ hd, splitTabs_none _ ht, List.map_cons, List.map_nil]

theorem recordLine_noNewline (eventType name : String) (t : Time)
    (he : '\n' ∉ eventType.data) (hn : '\n' ∉ name.data) :
    '\n' ∉ (recordLine eventType name t).data := by
  have hd : '\n' ∉ (t.Format DATE_FORMAT).data := fun hm => by
    have := format_date_toNat t _ hm
    revert this; decide
  have ht : '\n' ∉ (t.Format TIME_FORMAT).data := fun hm => by
    have := format_time_toNat t _ hm
    revert this; decide
  unfold recordLine
  generalize t.Format DATE_FORMAT = d at hd
  generalize t.Format TIME_FORMAT = tm at ht
  simp only [String.data_append, List.mem_append, not_or]
  refine ⟨⟨⟨⟨⟨⟨he, ?_⟩, hn⟩, ?_⟩, hd⟩, ?_⟩, ht⟩ <;> decide

theorem headerLine_noNewline : '\n' ∉ headerLine.data := by decide

/-! ## What the log file holds -/

theorem formatEvent_eq (e : mindwareEvent) :
    formatEvent e = recordLine e.EventType e.Name e.Timestamp ++ "\n" := rfl

theorem WriteEvent_returned (f : MindwareFile) (eventType name : String) (t : Time)
    (r : WriteResult) :
    f.WriteEvent eventType name t r
      = .returned ((f.pushEvent { EventType := eventType, Name := name, Timestamp := t }).printEvent
          { EventType := eventType, Name := name, Timestamp := t } r) := rfl

theorem printEvent_closed (f : MindwareFile) (e : mindwareEvent) (r : WriteResult) :
    (f.printEvent e r).file.closed = f.file.closed := by
  simp only [MindwareFile.printEvent, OsFile.Write]
  split
  · rfl
  · cases r <;> rfl

theorem printEvent_data (f : MindwareFile) (e : mindwareEvent) (r : WriteResult) :
    ∃ n, (f.printEvent e r).file.data = f.file.data ++ String.mk ((formatEvent e).data.take n) := by
  by_cases hc : f.file.closed = true
  · refine ⟨0, ?_⟩
    apply String.ext
    simp [MindwareFile.printEvent, OsFile.Write, hc]
  · cases r with
    | full =>
      refine ⟨(formatEvent e).data.length, ?_⟩
      apply String.ext
      simp [MindwareFile.printEvent, OsFile.Write, hc]
    | short n err =>
      refine ⟨n, ?_⟩
      simp [MindwareFile.printEvent, OsFile.Write, hc]

theorem printEvent_full (f : MindwareFile) (e : mindwareEvent) (hopen : f.file.closed = false) :
    (f.printEvent e .full).file.data = f.file.data ++ formatEvent e := by
  simp [MindwareFile.printEvent, OsFile.Write, hopen]

theorem writeAll_nil (f : MindwareFile) : f.writeAll [] = .returned f := rfl

theorem writeAll_cons (f : MindwareFile) (c : AppendCall) (cs : List AppendCall) :
    f.writeAll (c :: cs)
      = ((f.pushEvent { EventType := c.eventType, Name := c.name, Timestamp := c.instant }).printEvent
          { EventType := c.eventType, Name := c.name, Timestamp := c.instant } c.result).writeAll
          cs := rfl

theorem writeAll_appends (calls : List AppendCall) : ∀ f : MindwareFile,
    ∃ g tail, f.writeAll calls = .returned g ∧ g.file.data = f.file.data ++ tail := by
  induction calls with
  | nil => intro f; exact ⟨f, "", rfl, by simp⟩
  | cons c cs ih =>
    intro f
    rw [writeAll_cons]
    obtain ⟨g, tail, hg, hd⟩ := ih ((f.pushEvent
      { EventType := c.eventType, Name := c.name, Timestamp := c.instant }).printEvent
      { EventType := c.eventType, Name := c.name, Timestamp := c.instant } c.result)
    obtain ⟨n, hn⟩ := printEvent_data (f.pushEvent
      { EventType := c.eventType, Name := c.name, Timestamp := c.instant })
      { EventType := c.eventType, Name := c.name, Timestamp := c.instant } c.result
    refine ⟨g, String.mk ((formatEvent
      { EventType := c.eventType, Name := c.name, Timestamp := c.instant }).data.take n) ++ tail,
      hg, ?_⟩
    rw [hd, hn]
    simp only [MindwareFile.pushEvent, String.append_assoc]

theorem writeAll_full (calls : List AppendCall) : ∀ f : MindwareFile, f.file.closed = false →
    (∀ c ∈ calls, c.result = .full) →
    ∃ g, f.writeAll calls = .returned g ∧
      g.file.data
        = f.file.data ++ unlines (calls.map (fun c => recordLine c.eventType c.name c.instant)) := by
  induction calls with
  | nil => intro f _ _; exact ⟨f, rfl, by simp [unlines]⟩
  | cons c cs ih =>
    intro f hopen hfull
    have hc : c.result = .full := hfull c (List.mem_cons_self _ _)
    rw [writeAll_cons, hc]
    obtain ⟨g, hg, hd⟩ := ih ((f.pushEvent
      { EventType := c.eventType, Name := c.name, Timestamp := c.instant }).printEvent
      { EventType := c.eventType, Name := c.name, Timestamp := c.instant } .full)
      (by rw [printEvent_closed]; exact hopen)
      (fun x hx => hfull x (List.mem_cons_of_mem _ hx))
    refine ⟨g, hg, ?_⟩
    rw [hd, printEvent_full _ _ (by exact hopen)]
    simp [MindwareFile.pushEvent, unlines, formatEvent_eq, String.append_assoc]

theorem NewMindwareFile_ok (name : String) (t0 : Time) :
    NewMindwareFile name (.ok ()) t0 .full .full
      = .returned
          { file := { name := name,
                      data := unlines [headerLine, recordLine "Start Event" "" t0],
                      closed := false },
            events := [{ EventType := "Start Event", Name := "", Timestamp := t0 }] } := by
  simp [NewMindwareFile, osCreate, errOf, check, MindwareFile.writeHeader,
    MindwareFile.WriteEvent, MindwareFile.printEvent, MindwareFile.pushEvent, OsFile.Write,
    formatEvent_eq, unlines, headerLine, String.append_assoc]

/-! ## The event log: opening, appending, failing -/

/-- Claim C1, as amended. Whenever `os.Create` succeeds and the operating system
takes the two writes that follow in full, `NewMindwareFile` returns a handle
whose file holds exactly two lines: the header
`Event Type<TAB>Name<TAB>Date<TAB>Time` and one record whose first column is
`Start Event` and whose second column is empty; and whatever calls of
`WriteEvent` follow, whether their writes succeed or fail, these stay the first
two lines of the file. -/
theorem C1_open_writes_header_and_start_event (name : String) (t0 : Time) :
    ∃ f : MindwareFile, NewMindwareFile name (.ok ()) t0 .full .full = .returned f ∧
      lines f.file.data = [headerLine, recordLine "Start Event" "" t0] ∧
      headerLine = "Event Type\tName\tDate\tTime" ∧
      eventTypeOf (recordLine "Start Event" "" t0) = some "Start Event" ∧
      nameOf (recordLine "Start Event" "" t0) = some "" ∧
      ∀ calls : List AppendCall, ∃ g : MindwareFile, f.writeAll calls = .returned g ∧
        (lines g.file.data).take 2 = [headerLine, recordLine "Start Event" "" t0] := by
  have hcols := columns_recordLine "Start Event" "" t0 (by decide) (by decide)
  have hnl : ∀ l ∈ [headerLine, recordLine "Start Event" "" t0], '\n' ∉ l.data := by
    intro l hl
    simp only [List.mem_cons, List.mem_singleton, List.not_mem_nil, or_false] at hl
    rcases hl with hl | hl
    · subst hl; exact headerLine_noNewline
    · subst hl; exact recordLine_noNewline _ _ _ (by decide) (by decide)
  refine ⟨_, NewMindwareFile_ok name t0, ?_, rfl, ?_, ?_, ?_⟩
  · exact lines_unlines _ hnl
  · simp [eventTypeOf, hcols]
  · simp [nameOf, hcols]
  · intro calls
    obtain ⟨g, tail, hg, hd⟩ := writeAll_appends calls
      { file := { name := name,
                  data := unlines [headerLine, recordLine "Start Event" "" t0],
                  closed := false },
        events := [{ EventType := "Start Event", Name := "", Timestamp := t0 }] }
    refine ⟨g, hg, ?_⟩
    rw [hd]
    simp only []
    rw [lines_unlines_append _ _ hnl]
    simp

/-- Counterexample to C1 as stated: `os.Create` succeeds and the operating
system then refuses every byte (the name `/dev/full`, or a full disk); the
results of `Fprintln` and `Fprintf` are dropped, `NewMindwareFile` returns its
handle, and the file holds no line at all. With the header written and the
Start Event record cut after six bytes the second line is a fragment. -/
theorem C1_counterexample_writes_fail :
    NewMindwareFile "/dev/full" (.ok ()) (Time.ofNano 0)
        (.short 0 ⟨"no space left on device"⟩) (.short 0 ⟨"no space left on device"⟩)
      = .returned
          { file := { name := "/dev/full", data := "", closed := false },
            events := [{ EventType := "Start Event", Name := "", Timestamp := Time.ofNano 0 }] } ∧
    lines "" = [] ∧
    NewMindwareFile "subj1.log" (.ok ()) (Time.ofNano 0)
        .full (.short 6 ⟨"no space left on device"⟩)
      = .returned
          { file := { name := "subj1.log", data := "Event Type\tName\tDate\tTime\nStart ",
                      closed := false },
            events := [{ EventType := "Start Event", Name := "", Timestamp := Time.ofNano 0 }] } ∧
    lines "Event Type\tName\tDate\tTime\nStart " = ["Event Type\tName\tDate\tTime", "Start "] := by
  decide

/-- Claim C2, as amended. On a log that is open, when the operating system takes
the whole write, for every event type, every name and every instant `t` read
from the clock, `WriteEvent` returns having appended to the file exactly the
record `eventType<TAB>name<TAB>MM/DD/YYYY<TAB>HH:MM:SS.mmm AM/PM` ended by a
newline (and having added the event to the in-memory list): the date is
two-digit month, two-digit day and four-digit year of `t`, the time its hour on
the 12-hour clock (01..12), minute, second and millisecond, then AM or PM. -/
theorem C2_WriteEvent_appends_record (f : MindwareFile) (eventType name : String) (t : Time)
    (hopen : f.file.closed = false) :
    ∃ g : MindwareFile, f.WriteEvent eventType name t .full = .returned g ∧
      g.file.data
        = f.file.data ++ (eventType ++ "\t" ++ name ++ "\t" ++ dateMMDDYYYY t ++ "\t"
            ++ timeHHMMSSmmm t ++ "\n") ∧
      g.events = f.events ++ [{ EventType := eventType, Name := name, Timestamp := t }] ∧
      (1 ≤ t.Month ∧ t.Month ≤ 12) ∧ (1 ≤ t.Day ∧ t.Day ≤ 31) ∧ t.Year ≤ 9999 ∧
      (1 ≤ hour12 t ∧ hour12 t ≤ 12) ∧ t.Minute < 60 ∧ t.Second < 60 ∧
      t.Nanosecond / 1000000 < 1000 := by
  have hb := month_day_bounds t
  have hc := clock_bounds t
  refine ⟨_, WriteEvent_returned f eventType name t .full, ?_, rfl, ⟨hb.1, hb.2.1⟩,
    ⟨hb.2.2.1, hb.2.2.2⟩, year_le t, hour12_bounds t, hc.2.1, hc.2.2.1, ?_⟩
  · rw [printEvent_full _ _ (by exact hopen), formatEvent_eq]
    simp only [MindwareFile.pushEvent, recordLine, format_date_spec t, format_time_spec t]
  · have := hc.2.2.2
    omega

/-- Witness of C2: an afternoon instant of 2024 written to a freshly created log. -/
theorem C2_WriteEvent_appends_record_witness :
    ∃ g : MindwareFile,
      ({ file := { name := "subj1.log", data := "", closed := false }, events := [] } :
        MindwareFile).WriteEvent "KEY" "a" (Time.ofNano 1730730645123456789) .full
        = .returned g ∧
      g.file.data
        = "" ++ ("KEY" ++ "\t" ++ "a" ++ "\t" ++ dateMMDDYYYY (Time.ofNano 1730730645123456789)
            ++ "\t" ++ timeHHMMSSmmm (Time.ofNano 1730730645123456789) ++ "\n") := by
  obtain ⟨g, h1, h2, _⟩ := C2_WriteEvent_appends_record
    { file := { name := "subj1.log", data := "", closed := false }, events := [] }
    "KEY" "a" (Time.ofNano 1730730645123456789) rfl
  exact ⟨g, h1, h2⟩

/-- Counterexample to C2 as stated: on an open log whose disk takes only five
bytes of the write, `WriteEvent` returns with the fragment `KEY<TAB>a` in the
file, not a record ended by a newline; and on a log that has been closed it
returns with nothing appended. -/
theorem C2_counterexample_write_cut_short :
    ({ file := { name := "subj1.log", data := "", closed := false }, events := [] } :
        MindwareFile).WriteEvent "KEY" "a" (Time.ofNano 1730730645123456789)
          (.short 5 ⟨"no space left on device"⟩)
      = .returned
          { file := { name := "subj1.log", data := "KEY\ta", closed := false },
            events := [{ EventType := "KEY", Name := "a",
                         Timestamp := Time.ofNano 1730730645123456789 }] } ∧
    "KEY\ta" ≠ "" ++ ("KEY" ++ "\t" ++ "a" ++ "\t"
        ++ dateMMDDYYYY (Time.ofNano 1730730645123456789) ++ "\t"
        ++ timeHHMMSSmmm (Time.ofNano 1730730645123456789) ++ "\n") ∧
    ({ file := { name := "subj1.log", data := "", closed := true }, events := [] } :
        MindwareFile).WriteEvent "KEY" "a" (Time.ofNano 1730730645123456789) .full
      = .returned
          { file := { name := "subj1.log", data := "", closed := true },
            events := [{ EventType := "KEY", Name := "a",
                         Timestamp := Time.ofNano 1730730645123456789 }] } := by
  decide

/-- Claim C3, as amended. For every sequence of `WriteEvent` calls whose event types
and names contain no newline and whose writes the operating system takes in
full, made one after another on a freshly opened log, the file holds exactly
K+2 lines: the header, the Start Event record and then, for every i, the
record `eventType<TAB>name<TAB>date<TAB>time` of the i-th call; when that
call's event type and name contain no tab, the first two columns of its line
are its event type and its name. -/
theorem C3_lines_after_appends (name : String) (t0 : Time) (calls : List AppendCall)
    (h : ∀ c ∈ calls, '\n' ∉ c.eventType.data ∧ '\n' ∉ c.name.data)
    (hfull : ∀ c ∈ calls, c.result = .full) :
    ∃ f g : MindwareFile, NewMindwareFile name (.ok ()) t0 .full .full = .returned f ∧
      f.writeAll calls = .returned g ∧
      lines g.file.data
        = headerLine :: recordLine "Start Event" "" t0
            :: calls.map (fun c => recordLine c.eventType c.name c.instant) ∧
      (lines g.file.data).length = calls.length + 2 ∧
      ∀ (i : Nat) (c : AppendCall), calls[i]? = some c →
        '\t' ∉ c.eventType.data → '\t' ∉ c.name.data →
        ∃ line, (lines g.file.data)[i + 2]? = some line ∧
          eventTypeOf line = some c.eventType ∧ nameOf line = some c.name := by
  have hnl : ∀ l ∈ [headerLine, recordLine "Start Event" "" t0]
      ++ calls.map (fun c => recordLine c.eventType c.name c.instant), '\n' ∉ l.data := by
    intro l hl
    simp only [List.mem_append, List.mem_cons, List.mem_singleton, List.not_mem_nil, or_false,
      List.mem_map] at hl
    rcases hl with (hl | hl) | ⟨c, hc, hl⟩
    · subst hl; exact headerLine_noNewline
    · subst hl; exact recordLine_noNewline _ _ _ (by decide) (by decide)
    · subst hl; exact recordLine_noNewline _ _ _ (h c hc).1 (h c hc).2
  obtain ⟨g, hg, hd⟩ := writeAll_full calls
    { file := { name := name,
                data := unlines [headerLine, recordLine "Start Event" "" t0],
                closed := false },
      events := [{ EventType := "Start Event", Name := "", Timestamp := t0 }] } rfl hfull
  have hlines : lines g.file.data
      = headerLine :: recordLine "Start Event" "" t0
            :: calls.map (fun c => recordLine c.eventType c.name c.instant) := by
    rw [hd]
    simp only []
    rw [← unlines_append, lines_unlines _ hnl]
    rfl
  refine ⟨_, g, NewMindwareFile_ok name t0, hg, hlines, ?_, ?_⟩
  · rw [hlines]; simp
  · intro i c hi he hn
    refine ⟨recordLine c.eventType c.name c.instant, ?_, ?_, ?_⟩
    · rw [hlines]
      simp [List.getElem?_cons_succ, List.getElem?_map, hi]
    · simp [eventTypeOf, columns_recordLine _ _ _ he hn]
    · simp [nameOf, columns_recordLine _ _ _ he hn]

/-- Witness of C3, the scenario of the specification: open, append("KEY","a"),
append("CANCEL","") gives four lines, the header, the Start Event record and the
two records, with `CANCEL` the type of the fourth line. -/
theorem C3_lines_after_appends_witness :
    ∃ f g : MindwareFile,
      NewMindwareFile "subj1.log" (.ok ()) (Time.ofNano 0) .full .full = .returned f ∧
      f.writeAll [⟨"KEY", "a", Time.ofNano 1000000, .full⟩,
                  ⟨"CANCEL", "", Time.ofNano 2000000, .full⟩] = .returned g ∧
      lines g.file.data
        = headerLine :: recordLine "Start Event" "" (Time.ofNano 0)
            :: [(⟨"KEY", "a", Time.ofNano 1000000, .full⟩ : AppendCall),
                ⟨"CANCEL", "", Time.ofNano 2000000, .full⟩].map
                (fun c : AppendCall => recordLine c.eventType c.name c.instant) ∧
      (lines g.file.data).length
        = [(⟨"KEY", "a", Time.ofNano 1000000, .full⟩ : AppendCall),
           ⟨"CANCEL", "", Time.ofNano 2000000, .full⟩].length + 2 ∧
      ∀ (i : Nat) (c : AppendCall),
        [(⟨"KEY", "a", Time.ofNano 1000000, .full⟩ : AppendCall),
         ⟨"CANCEL", "", Time.ofNano 2000000, .full⟩][i]? = some c →
        '\t' ∉ c.eventType.data → '\t' ∉ c.name.data →
        ∃ line, (lines g.file.data)[i + 2]? = some line ∧
          eventTypeOf line = some c.eventType ∧ nameOf line = some c.name :=
  C3_lines_after_appends "subj1.log" (Time.ofNano 0)
    [⟨"KEY", "a", Time.ofNano 1000000, .full⟩, ⟨"CANCEL", "", Time.ofNano 2000000, .full⟩]
    (by decide) (by decide)

/-- Counterexample to C3 as stated. First, one call whose name holds a newline
leaves four lines in the file, not K+2 = 3: the third and fourth lines are the
two halves of the one record. Second, two calls with plain strings, the write
of the first cut after two bytes by a full disk, leave three lines, not
K+2 = 4: the third line is the fragment of the first record run together with
the second record. -/
theorem C3_counterexample_newline_and_short_write :
    (∃ f g : MindwareFile,
      NewMindwareFile "subj1.log" (.ok ()) (Time.ofNano 0) .full .full = .returned f ∧
      f.writeAll [⟨"KEY", "a\nb", Time.ofNano 0, .full⟩] = .returned g ∧
      lines g.file.data
        = ["Event Type\tName\tDate\tTime", "Start Event\t\t01/01/1970\t12:00:00.000 AM",
           "KEY\ta", "b\t01/01/1970\t12:00:00.000 AM"] ∧
      (lines g.file.data).length
        ≠ [(⟨"KEY", "a\nb", Time.ofNano 0, .full⟩ : AppendCall)].length + 2) ∧
    (∃ f g : MindwareFile,
      NewMindwareFile "subj1.log" (.ok ()) (Time.ofNano 0) .full .full = .returned f ∧
      f.writeAll [⟨"KEY", "a", Time.ofNano 1000000, .short 2 ⟨"no space left on device"⟩⟩,
                  ⟨"CANCEL", "", Time.ofNano 2000000, .full⟩] = .returned g ∧
      lines g.file.data
        = ["Event Type\tName\tDate\tTime", "Start Event\t\t01/01/1970\t12:00:00.000 AM",
           "KECANCEL\t\t01/01/1970\t12:00:00.002 AM"] ∧
      (lines g.file.data).length
        ≠ [(⟨"KEY", "a", Time.ofNano 1000000, .short 2 ⟨"no space left on device"⟩⟩ : AppendCall),
           ⟨"CANCEL", "", Time.ofNano 2000000, .full⟩].length + 2) := by
  refine ⟨⟨_, _, NewMindwareFile_ok _ _, rfl, ?_, ?_⟩, ⟨_, _, NewMindwareFile_ok _ _, rfl, ?_, ?_⟩⟩
    <;> decide

/-- The scenario of the specification, evaluated: open "subj1.log", append
("KEY","a") one millisecond later, append ("CANCEL","") after two, close, every
write taken in full. The file holds four lines, the second of type Start
Event, the fourth of type CANCEL, with timestamps that do not decrease. -/
theorem scenario_subj1_log :
    ∃ f g : MindwareFile,
      NewMindwareFile "subj1.log" (.ok ()) (Time.ofNano 0) .full .full = .returned f ∧
      f.writeAll [⟨"KEY", "a", Time.ofNano 1000000, .full⟩,
                  ⟨"CANCEL", "", Time.ofNano 2000000, .full⟩] = .returned g ∧
      g.Close.2 = none ∧
      lines g.Close.1.file.data
        = ["Event Type\tName\tDate\tTime", "Start Event\t\t01/01/1970\t12:00:00.000 AM",
           "KEY\ta\t01/01/1970\t12:00:00.001 AM", "CANCEL\t\t01/01/1970\t12:00:00.002 AM"] ∧
      (lines g.Close.1.file.data).map eventTypeOf
        = [some "Event Type", some "Start Event", some "KEY", some "CANCEL"] := by
  refine ⟨_, _, NewMindwareFile_ok _ _, rfl, ?_, ?_, ?_⟩ <;> decide

/-! ### Failures of the log -/

/-- Claim C8, as amended. When `os.Create` fails, `NewMindwareFile` panics with that
error and returns no handle, whatever the writes would have done. Whatever the
operating system does with the write of a record, `WriteEvent` neither panics
nor exits nor reports anything: it returns; the event is appended to the
in-memory list of events; and the file holds what it held followed by the part
of the record that the operating system took: nothing on a closed handle, the
first bytes of the record when the write is cut short. -/
theorem C8_log_failures (name : String) (e : GoError) (t0 : Time) (w1 w2 : WriteResult)
    (f : MindwareFile) (eventType nm : String) (t : Time) (r : WriteResult) :
    NewMindwareFile name (.error e) t0 w1 w2 = .panicked e ∧
      ∃ g : MindwareFile, f.WriteEvent eventType nm t r = .returned g ∧
        g.events = f.events ++ [{ EventType := eventType, Name := nm, Timestamp := t }] ∧
        g.file.closed = f.file.closed ∧
        (∃ n, g.file.data = f.file.data ++ String.mk
          ((formatEvent { EventType := eventType, Name := nm, Timestamp := t }).data.take n)) ∧
        (f.file.closed = true → g.file = f.file) ∧
        (∀ (n : Nat) (err : GoError), f.file.closed = false → r = .short n err →
          g.file.data = f.file.data ++ String.mk
            ((formatEvent { EventType := eventType, Name := nm, Timestamp := t }).data.take n)) := by
  refine ⟨rfl, _, WriteEvent_returned f eventType nm t r, rfl, ?_, ?_, ?_, ?_⟩
  · rw [printEvent_closed]; rfl
  · exact printEvent_data _ _ r
  · intro hc
    simp [MindwareFile.printEvent, MindwareFile.pushEvent, OsFile.Write, hc]
  · intro n err hopen hr
    subst hr
    simp [MindwareFile.printEvent, MindwareFile.pushEvent, OsFile.Write, hopen]

/-- Witness of C8: a creation that fails, and the write of a record cut after
five bytes on an open log. -/
theorem C8_log_failures_witness :
    NewMindwareFile "/nowhere/subj1.log" (.error ⟨"no such file or directory"⟩) (Time.ofNano 0)
        .full .full = .panicked ⟨"no such file or directory"⟩ ∧
      ∃ g : MindwareFile,
        ({ file := { name := "subj1.log", data := "", closed := false }, events := [] } :
          MindwareFile).WriteEvent "KEY" "a" (Time.ofNano 0)
            (.short 5 ⟨"no space left on device"⟩) = .returned g ∧
        g.events = [] ++ [{ EventType := "KEY", Name := "a", Timestamp := Time.ofNano 0 }] ∧
        g.file.data = "" ++ String.mk
          ((formatEvent { EventType := "KEY", Name := "a", Timestamp := Time.ofNano 0 }).data.take
            5) := by
  obtain ⟨h1, g, h2, h3, _, _, _, h7⟩ := C8_log_failures "/nowhere/subj1.log"
    ⟨"no such file or directory"⟩ (Time.ofNano 0) .full .full
    { file := { name := "subj1.log", data := "", closed := false }, events := [] }
    "KEY" "a" (Time.ofNano 0) (.short 5 ⟨"no space left on device"⟩)
  exact ⟨h1, g, h2, h3, h7 5 _ rfl rfl⟩

/-- Counterexample to C8 as stated: a failed creation ends in a panic; a write
cut short by a full disk goes unreported, `WriteEvent` returning with the event
counted in memory while the file holds only the first five bytes of its
record; and after `Close` a `WriteEvent` returns with the event counted in
memory and no byte of it in the file. -/
theorem C8_counterexample_panic_and_unlogged_event :
    NewMindwareFile "/nowhere/subj1.log" (.error ⟨"no such file or directory"⟩) (Time.ofNano 0)
        .full .full = .panicked ⟨"no such file or directory"⟩ ∧
      ∃ f g h : MindwareFile,
        NewMindwareFile "subj1.log" (.ok ()) (Time.ofNano 0) .full .full = .returned f ∧
        f.WriteEvent "KEY" "a" (Time.ofNano 1000000) (.short 5 ⟨"no space left on device"⟩)
          = .returned g ∧
        g.events.map (fun ev => ev.EventType) = ["Start Event", "KEY"] ∧
        lines g.file.data
          = ["Event Type\tName\tDate\tTime", "Start Event\t\t01/01/1970\t12:00:00.000 AM",
             "KEY\ta"] ∧
        f.Close.2 = none ∧
        f.Close.1.WriteEvent "KEY" "a" (Time.ofNano 1000000) .full = .returned h ∧
        h.events.map (fun ev => ev.EventType) = ["Start Event", "KEY"] ∧
        lines h.file.data
          = ["Event Type\tName\tDate\tTime", "Start Event\t\t01/01/1970\t12:00:00.000 AM"] := by
  refine ⟨rfl, _, _, _, NewMindwareFile_ok _ _, rfl, ?_, ?_, ?_, rfl, ?_, ?_⟩ <;> decide

/-! ## The control plane -/

theorem handleAction_table (p : PsychTimer) (msg : ClientMessage) :
    handleAction (some p) msg = (tableCall p msg).toList := by
  unfold handleAction tableCall
  split_ifs with h1 h2 h3 h4
  · simp [h1]
  · simp [h2]
  · simp [h3]
  · simp [h4]
  · split <;> simp_all

/-- Claim C4. With a session bound, for every finite sequence of commands taken from
the command channel the dispatcher makes exactly the engine calls of the table
of the specification, in the order of the commands: START gives `RunOne` on the
subject (started as a goroutine), CANCEL gives `Cancel`, KEY gives `AddKey` with
content and key code, CONTINUE gives `Continue`, and any other action, the
absent one included, gives no call. -/
theorem C4_dispatch_in_order (p : Process) (session : PsychTimer) (msgs : List ClientMessage) :
    handleActions { p with client := some session } msgs = msgs.filterMap (tableCall session) ∧
    (∀ m : ClientMessage, m.Action = "START" →
      handleActions { p with client := some session } [m]
        = [.goRunOne (some session) m.SubjectID]) ∧
    (∀ m : ClientMessage, m.Action = "CANCEL" →
      handleActions { p with client := some session } [m]
        = [.Cancel (some session) m.SubjectID]) ∧
    (∀ m : ClientMessage, m.Action = "KEY" →
      handleActions { p with client := some session } [m]
        = [.AddKey (some session) m.Content m.KeyCode]) ∧
    (∀ m : ClientMessage, m.Action = "CONTINUE" →
      handleActions { p with client := some session } [m] = [.Continue (some session)]) ∧
    (∀ m : ClientMessage, m.Action ≠ "START" → m.Action ≠ "CANCEL" → m.Action ≠ "KEY" →
      m.Action ≠ "CONTINUE" → handleActions { p with client := some session } [m] = []) := by
  refine ⟨?_, ?_, ?_, ?_, ?_, ?_⟩
  · induction msgs with
    | nil => rfl
    | cons m ms ih =>
      rw [handleActions, ih]
      simp only [handleAction_table, List.filterMap_cons]
      cases tableCall session m <;> simp
  · intro m h; simp [handleActions, handleAction, h]
  · intro m h; simp [handleActions, handleAction, h]
  · intro m h; simp [handleActions, handleAction, h]
  · intro m h; simp [handleActions, handleAction, h]
  · intro m h1 h2 h3 h4; simp [handleActions, handleAction, h1, h2, h3, h4]

/-- Witness of C4: START, an unknown action, KEY and CANCEL, in that order. -/
theorem C4_dispatch_in_order_witness :
    handleActions { client := some ⟨⟨"read me"⟩, ⟨1⟩⟩, actionChan := [], serverChan := [],
                    sent := [], closed := [] }
        [⟨"s1", "START", "", 0⟩, ⟨"s1", "PING", "", 0⟩, ⟨"s1", "KEY", "a", 65⟩,
         ⟨"s1", "CANCEL", "", 0⟩]
      = [.goRunOne (some ⟨⟨"read me"⟩, ⟨1⟩⟩) "s1", .AddKey (some ⟨⟨"read me"⟩, ⟨1⟩⟩) "a" 65,
         .Cancel (some ⟨⟨"read me"⟩, ⟨1⟩⟩) "s1"] :=
  (C4_dispatch_in_order
    { client := none, actionChan := [], serverChan := [], sent := [], closed := [] }
    ⟨⟨"read me"⟩, ⟨1⟩⟩
    [⟨"s1", "START", "", 0⟩, ⟨"s1", "PING", "", 0⟩, ⟨"s1", "KEY", "a", 65⟩,
     ⟨"s1", "CANCEL", "", 0⟩]).1


theorem readLoop_ok_append (pre : List ClientMessage) :
    ∀ (p : Process) (rest : List (Except GoError ClientMessage)),
      readLoop p (pre.map Except.ok ++ rest)
        = readLoop { p with actionChan := p.actionChan ++ pre } rest := by
  induction pre with
  | nil => intro p rest; simp
  | cons m ms ih =>
    intro p rest
    simp only [List.map_cons, List.cons_append]
    rw [readLoop, ih]
    simp [List.append_assoc]

/-- Claim C5. On an upgraded connection, whatever the reads give: when the reads are
`pre` decoded messages, then a failed read, then anything, the gateway has put
on the command channel exactly the messages of `pre`, in order, nothing of what
follows the failure; it has cleared the current-session reference; and it has
left its loop and returned. While no read has failed it has enqueued every
decoded message in order and is still reading, the session bound. Hence the
dispatcher, fed from the command channel, is handed nothing that follows the
failure. -/
theorem C5_read_loop_stops_at_first_failure (p : Process) (c : Config) (ws : Conn)
    (pre : List ClientMessage) (e : GoError) (post : List (Except GoError ClientMessage)) :
    (handleConnections p c (.ok ws) (pre.map Except.ok ++ .error e :: post)).1.actionChan
        = p.actionChan ++ pre ∧
      (handleConnections p c (.ok ws) (pre.map Except.ok ++ .error e :: post)).1.client = none ∧
      (handleConnections p c (.ok ws) (pre.map Except.ok ++ .error e :: post)).2
        = some (.returned ()) ∧
      (handleConnections p c (.ok ws) (pre.map Except.ok)).1.actionChan = p.actionChan ++ pre ∧
      (handleConnections p c (.ok ws) (pre.map Except.ok)).1.client
        = some (NewPsychTimer c ws) ∧
      (handleConnections p c (.ok ws) (pre.map Except.ok)).2 = none := by
  have h2 := readLoop_ok_append pre
  have h3 : ∀ q : Process, readLoop q (pre.map Except.ok)
      = ({ q with actionChan := q.actionChan ++ pre }, false) := by
    intro q
    have := h2 q []
    simpa [readLoop] using this
  refine ⟨?_, ?_, ?_, ?_, ?_, ?_⟩ <;>
    simp [handleConnections, h2, h3, readLoop]

/-- Claim C7, as amended. When the upgrade fails, `handleConnections` logs the
error and ends the whole process with exit status 1 (`log.Fatal`); up to that
point it has created no session, left the current-session reference as it was,
and sent nothing on either channel. -/
theorem C7_upgrade_failure_exits (p : Process) (c : Config) (e : GoError)
    (reads : List (Except GoError ClientMessage)) :
    handleConnections p c (.error e) reads = (p, some (.exited 1)) := rfl

/-- Counterexample to C7 as stated: with a failed upgrade the call does not
return to the HTTP layer; the process exits. -/
theorem C7_counterexample_process_exits :
    (handleConnections
        { client := none, actionChan := [], serverChan := [], sent := [], closed := [] }
        ⟨"read me"⟩ (.error ⟨"websocket: not a websocket handshake"⟩) []).2
      = some (.exited 1) ∧
    (handleConnections
        { client := none, actionChan := [], serverChan := [], sent := [], closed := [] }
        ⟨"read me"⟩ (.error ⟨"websocket: not a websocket handshake"⟩) []).2
      ≠ some (.returned ()) := by
  decide

/-- Evaluation for C9. With no session bound (`client` nil) a command taken
from the channel is not dropped: for CANCEL the dispatcher calls `Cancel` on the
nil reference, and likewise `RunOne`, `AddKey` and `Continue` for the other
three actions. The state is reached with two connections: a first one is
upgraded, a second one is upgraded and becomes the session, the read of the
first one fails, which sets `client` to nil, and the second one then sends
CANCEL. -/
theorem C9_nil_session_still_dispatched :
    handleActions { client := none, actionChan := [], serverChan := [], sent := [], closed := [] }
        [⟨"s1", "CANCEL", "", 0⟩] = [.Cancel none "s1"] ∧
    handleActions { client := none, actionChan := [], serverChan := [], sent := [], closed := [] }
        [⟨"s1", "START", "", 0⟩, ⟨"s1", "KEY", "a", 65⟩, ⟨"", "CONTINUE", "", 0⟩]
      = [.goRunOne none "s1", .AddKey none "a" 65, .Continue none] ∧
    (readLoop
        (readLoop
          (handleConnections
            (handleConnections
              { client := none, actionChan := [], serverChan := [], sent := [], closed := [] }
              ⟨"read me"⟩ (.ok ⟨1⟩) []).1
            ⟨"read me"⟩ (.ok ⟨2⟩) []).1
          [.error ⟨"websocket: close 1001 (going away)"⟩]).1
        [.ok ⟨"s1", "CANCEL", "", 0⟩]).1.client = none ∧
    handleActions
        (readLoop
          (readLoop
            (handleConnections
              (handleConnections
                { client := none, actionChan := [], serverChan := [], sent := [], closed := [] }
                ⟨"read me"⟩ (.ok ⟨1⟩) []).1
              ⟨"read me"⟩ (.ok ⟨2⟩) []).1
            [.error ⟨"websocket: close 1001 (going away)"⟩]).1
          [.ok ⟨"s1", "CANCEL", "", 0⟩]).1
        [⟨"s1", "CANCEL", "", 0⟩]
      = [.Cancel none "s1"] := by
  decide

theorem marshal_members (m : ServerMessage) (k v : String) :
    (k, v) ∈ marshalServerMessage m ↔
      (k = "kind" ∧ v = m.Kind ∧ m.Kind ≠ "") ∨ (k = "message" ∧ v = m.Message ∧ m.Message ≠ "") := by
  unfold marshalServerMessage
  by_cases h1 : m.Kind = "" <;> by_cases h2 : m.Message = "" <;> simp [h1, h2]

theorem handleServerMessages_bound (session : PsychTimer) (msgs : List ServerMessage) :
    ∀ p : Process, p.client = some session → session.conn ∉ p.closed →
      handleServerMessages p msgs
        = .returned
            { p with sent := p.sent ++ msgs.map (fun m => (session.conn, marshalServerMessage m)) } := by
  induction msgs with
  | nil => intro p _ _; simp [handleServerMessages]
  | cons m ms ih =>
    intro p hb hopen
    have h1 : handleServerMessage p m
        = .returned { p with sent := p.sent ++ [(session.conn, marshalServerMessage m)] } := by
      simp [handleServerMessage, hb, WriteJSON, hopen]
    rw [handleServerMessages, h1]
    simp only []
    rw [ih { p with sent := p.sent ++ [(session.conn, marshalServerMessage m)] } hb hopen]
    simp [List.append_assoc]

/-- Claim C6, as amended. With a session bound to an open connection, for every
sequence of Status Messages pushed onto the status channel the relay writes to
that connection, exactly once each and in the order pushed, the JSON object of
each message; that object carries the member `kind` only when the kind is not
empty and the member `message` only when the message is not empty, each with
the pushed value, so it is `{"kind": kind, "message": message}` exactly when
both strings are non-empty. -/
theorem C6_relay_writes_in_order (p : Process) (session : PsychTimer)
    (msgs : List ServerMessage) (hb : p.client = some session)
    (hopen : session.conn ∉ p.closed) :
    handleServerMessages p msgs
        = .returned
            { p with sent := p.sent ++ msgs.map (fun m => (session.conn, marshalServerMessage m)) } ∧
      (∀ m : ServerMessage, m.Kind ≠ "" → m.Message ≠ "" →
        marshalServerMessage m = [("kind", m.Kind), ("message", m.Message)]) ∧
      (∀ (m : ServerMessage) (k v : String), (k, v) ∈ marshalServerMessage m ↔
        (k = "kind" ∧ v = m.Kind ∧ m.Kind ≠ "")
          ∨ (k = "message" ∧ v = m.Message ∧ m.Message ≠ "")) := by
  refine ⟨handleServerMessages_bound session msgs p hb hopen, ?_, marshal_members⟩
  intro m h1 h2
  simp [marshalServerMessage, h1, h2]

/-- Witness of C6: the message `{"kind":"INSTRUCTIONS","message":"X"}` arrives
once, as the object with both members. -/
theorem C6_relay_writes_in_order_witness :
    handleServerMessages
        { client := some ⟨⟨"X"⟩, ⟨1⟩⟩, actionChan := [], serverChan := [], sent := [],
          closed := [] }
        [⟨"INSTRUCTIONS", "X"⟩]
      = .returned
          { client := some ⟨⟨"X"⟩, ⟨1⟩⟩, actionChan := [], serverChan := [],
            sent := [] ++ [(⟨"INSTRUCTIONS", "X"⟩ : ServerMessage)].map
              (fun m => ((⟨1⟩ : Conn), marshalServerMessage m)),
            closed := [] } ∧
      marshalServerMessage ⟨"INSTRUCTIONS", "X"⟩ = [("kind", "INSTRUCTIONS"), ("message", "X")] :=
  ⟨(C6_relay_writes_in_order
      { client := some ⟨⟨"X"⟩, ⟨1⟩⟩, actionChan := [], serverChan := [], sent := [],
        closed := [] }
      ⟨⟨"X"⟩, ⟨1⟩⟩ [⟨"INSTRUCTIONS", "X"⟩] rfl (by decide)).1,
   (C6_relay_writes_in_order
      { client := some ⟨⟨"X"⟩, ⟨1⟩⟩, actionChan := [], serverChan := [], sent := [],
        closed := [] }
      ⟨⟨"X"⟩, ⟨1⟩⟩ [⟨"INSTRUCTIONS", "X"⟩] rfl (by decide)).2.1 ⟨"INSTRUCTIONS", "X"⟩
        (by decide) (by decide)⟩

/-- Counterexample to C6 as stated: a Status Message whose message is the empty
string (the instructions of a configuration that gives none) is written as the
object with the single member `kind`; the member `message` is absent. -/
theorem C6_counterexample_empty_message_omitted :
    handleServerMessages
        { client := some ⟨⟨""⟩, ⟨1⟩⟩, actionChan := [], serverChan := [], sent := [],
          closed := [] }
        [⟨"INSTRUCTIONS", ""⟩]
      = .returned
          { client := some ⟨⟨""⟩, ⟨1⟩⟩, actionChan := [], serverChan := [],
            sent := [(⟨1⟩, [("kind", "INSTRUCTIONS")])], closed := [] } ∧
      marshalServerMessage ⟨"INSTRUCTIONS", ""⟩ ≠ [("kind", "INSTRUCTIONS"), ("message", "")] := by
  decide


/-! ## Concurrent appends -/

theorem start_inv (f0 : MindwareFile) (calls0 : Nat → List (String × String))
    (hopen : f0.file.closed = false) : Shared.Inv f0 calls0 (Shared.start f0 calls0) where
  isOpen := hopen
  data := by simp [Shared.start, Shared.records, Shared.inProgress, unlines]
  parts := by intro i e done rest h; simp [Shared.start] at h
  holder := by intro i h; simp [Shared.start, Pc.inCritical] at h
  held := by intro i h; simp [Shared.start] at h
  events := by simp [Shared.start, Shared.unprinted]
  loaded := by intro i e evs h; simp [Shared.start] at h
  locks := by simp [Shared.start, Shared.holding]
  order := by intro i; simp [Shared.start, Shared.writtenBy, Pc.inFlight]

theorem take_append_drop_string (p : String) (k : Nat) :
    String.mk (p.data.take k) ++ String.mk (p.data.drop k) = p := by
  apply String.ext
  simp [List.take_append_drop]

theorem step_inv (f0 : MindwareFile) (calls0 : Nat → List (String × String)) (s : Shared)
    (x : Turn) (hr : x.result = .full) (h : Shared.Inv f0 calls0 s) :
    Shared.Inv f0 calls0 (s.step x) := by
  obtain ⟨i, now, k, r⟩ := x
  simp only at hr
  subst hr
  rcases hpc : (s.callers i).pc with _ | e | e | ⟨e, evs⟩ | e | ⟨e, done, rest⟩ | e
  · -- idle
    rcases htodo : (s.callers i).todo with _ | ⟨call, rest⟩
    · have hs : s.step ⟨i, now, k, .full⟩ = s := by simp [Shared.step, hpc, htodo]
      rw [hs]; exact h
    · have hmi : s.mutex ≠ some i := fun hm => by
        have := h.held i hm
        simp [hpc, Pc.inCritical] at this
      have hother : ∀ j, s.mutex = some j → j ≠ i := fun j hj hji => hmi (hji ▸ hj)
      simp only [Shared.step, hpc, htodo]
      refine ⟨h.isOpen, ?_, ?_, ?_, ?_, ?_, ?_, ?_, ?_⟩
      · have hd := h.data
        rcases hm : s.mutex with _ | j
        · simpa [Shared.records, Shared.inProgress, hm] using hd
        · simpa [Shared.records, Shared.inProgress, hm, Function.update_noteq (hother j hm)]
            using hd
      · intro j e' done rest' hj
        by_cases hji : j = i
        · subst hji; simp at hj
        · simp only [Function.update_noteq hji] at hj
          exact h.parts j e' done rest' hj
      · intro j hj
        by_cases hji : j = i
        · subst hji; simp [Pc.inCritical] at hj
        · simp only [Function.update_noteq hji] at hj
          exact h.holder j hj
      · intro j hj
        by_cases hji : j = i
        · subst hji; exact absurd hj hmi
        · simp only [Function.update_noteq hji]
          exact h.held j hj
      · have hd := h.events
        rcases hm : s.mutex with _ | j
        · simpa [Shared.unprinted, hm] using hd
        · simpa [Shared.unprinted, hm, Function.update_noteq (hother j hm)] using hd
      · intro j e evs hj
        by_cases hji : j = i
        · subst hji; simp at hj
        · simp only [Function.update_noteq hji] at hj
          exact h.loaded j e evs hj
      · have hd := h.locks
        rcases hm : s.mutex with _ | j
        · simpa [Shared.holding, hm] using hd
        · simpa [Shared.holding, hm, Function.update_noteq (hother j hm)] using hd
      · intro j
        by_cases hji : j = i
        · subst hji
          have := h.order j
          simp only [hpc, htodo, Pc.inFlight, Shared.writtenBy] at this ⊢
          simpa using this
        · simp only [Function.update_noteq hji, Shared.writtenBy]
          exact h.order j
  · -- captured: Lock
    rcases hm : s.mutex with _ | j
    · simp only [Shared.step, hpc, hm]
      have hnone : ∀ j, (s.callers j).pc.inCritical = true → False := fun j hj => by
        have := h.holder j hj
        rw [hm] at this
        exact Option.noConfusion this
      refine ⟨h.isOpen, ?_, ?_, ?_, ?_, ?_, ?_, ?_, ?_⟩
      · simpa [Shared.records, Shared.inProgress, hm] using h.data
      · intro j e' done rest' hj
        by_cases hji : j = i
        · subst hji; simp at hj
        · simp only [Function.update_noteq hji] at hj
          exact h.parts j e' done rest' hj
      · intro j hj
        by_cases hji : j = i
        · rw [hji]
        · simp only [Function.update_noteq hji] at hj
          exact absurd hj (fun hj => hnone j hj)
      · intro j hj
        have hji : j = i := (Option.some.inj hj).symm
        subst hji
        simp [Pc.inCritical]
      · simpa [Shared.unprinted, hm] using h.events
      · intro j e' evs hj
        by_cases hji : j = i
        · subst hji; simp at hj
        · simp only [Function.update_noteq hji] at hj
          exact h.loaded j e' evs hj
      · have := h.locks
        simp only [Shared.holding, hm, List.append_nil] at this
        simp [Shared.holding, this]
      · intro j
        by_cases hji : j = i
        · subst hji
          have := h.order j
          simp only [hpc, Pc.inFlight, Shared.writtenBy] at this ⊢
          simpa [Pc.inFlight] using this
        · simp only [Function.update_noteq hji, Shared.writtenBy]
          exact h.order j
    · have hs : s.step ⟨i, now, k, .full⟩ = s := by simp [Shared.step, hpc, hm]
      rw [hs]; exact h
  · -- locked: read f.events
    have hm : s.mutex = some i := h.holder i (by simp [hpc, Pc.inCritical])
    simp only [Shared.step, hpc]
    refine ⟨h.isOpen, ?_, ?_, ?_, ?_, ?_, ?_, ?_, ?_⟩
    · simpa [Shared.records, Shared.inProgress, hm, hpc] using h.data
    · intro j e' done rest' hj
      by_cases hji : j = i
      · subst hji; simp at hj
      · simp only [Function.update_noteq hji] at hj
        exact h.parts j e' done rest' hj
    · intro j hj
      by_cases hji : j = i
      · rw [hji]; exact hm
      · simp only [Function.update_noteq hji] at hj
        exact h.holder j hj
    · intro j hj
      by_cases hji : j = i
      · subst hji; simp [Pc.inCritical]
      · simp only [Function.update_noteq hji]
        exact h.held j hj
    · simpa [Shared.unprinted, hm, hpc] using h.events
    · intro j e' evs hj
      by_cases hji : j = i
      · subst hji
        simp only [Function.update_same, Pc.loaded.injEq] at hj
        exact hj.2.symm
      · simp only [Function.update_noteq hji] at hj
        exact h.loaded j e' evs hj
    · simpa [Shared.holding, hm, hpc] using h.locks
    · intro j
      by_cases hji : j = i
      · subst hji
        have := h.order j
        simp only [hpc, Pc.inFlight, Shared.writtenBy] at this ⊢
        simpa [Pc.inFlight] using this
      · simp only [Function.update_noteq hji, Shared.writtenBy]
        exact h.order j
  · -- loaded: store the extended slice
    have hm : s.mutex = some i := h.holder i (by simp [hpc, Pc.inCritical])
    have hevs : evs = s.f.events := h.loaded i e evs hpc
    have hothers : ∀ j, j ≠ i → (s.callers j).pc.inCritical = true → False := fun j hji hj => by
      have := h.holder j hj
      rw [hm] at this
      exact hji (Option.some.inj this).symm
    simp only [Shared.step, hpc]
    refine ⟨h.isOpen, ?_, ?_, ?_, ?_, ?_, ?_, ?_, ?_⟩
    · simpa [Shared.records, Shared.inProgress, hm, hpc] using h.data
    · intro j e' done rest' hj
      by_cases hji : j = i
      · subst hji; simp at hj
      · simp only [Function.update_noteq hji] at hj
        exact h.parts j e' done rest' hj
    · intro j hj
      by_cases hji : j = i
      · rw [hji]; exact hm
      · simp only [Function.update_noteq hji] at hj
        exact h.holder j hj
    · intro j hj
      by_cases hji : j = i
      · subst hji; simp [Pc.inCritical]
      · simp only [Function.update_noteq hji]
        exact h.held j hj
    · have := h.events
      simp only [Shared.unprinted, hm, hpc, List.append_nil] at this
      simp [Shared.unprinted, hm, hevs, this]
    · intro j e' evs' hj
      by_cases hji : j = i
      · subst hji; simp at hj
      · simp only [Function.update_noteq hji] at hj
        exact absurd (by simp [hj, Pc.inCritical]) (fun hc => hothers j hji hc)
    · simpa [Shared.holding, hm, hpc] using h.locks
    · intro j
      by_cases hji : j = i
      · subst hji
        have := h.order j
        simp only [hpc, Pc.inFlight, Shared.writtenBy] at this ⊢
        simpa [Pc.inFlight] using this
      · simp only [Function.update_noteq hji, Shared.writtenBy]
        exact h.order j
  · -- appended: first write system call of Fprintf
    have hm : s.mutex = some i := h.holder i (by simp [hpc, Pc.inCritical])
    simp only [Shared.step, hpc]
    refine ⟨?_, ?_, ?_, ?_, ?_, ?_, ?_, ?_, ?_⟩
    · simp [OsFile.Write, h.isOpen]
    · have := h.data
      simp only [Shared.inProgress, hm, hpc, String.append_empty] at this
      simp [OsFile.Write, h.isOpen, this, Shared.records, Shared.inProgress, hm]
    · intro j e' done rest' hj
      by_cases hji : j = i
      · subst hji
        simp only [Function.update_same, Pc.printing.injEq] at hj
        obtain ⟨he, hd, hrest⟩ := hj
        subst he; subst hd; subst hrest
        exact take_append_drop_string _ _
      · simp only [Function.update_noteq hji] at hj
        exact h.parts j e' done rest' hj
    · intro j hj
      by_cases hji : j = i
      · rw [hji]; exact hm
      · simp only [Function.update_noteq hji] at hj
        exact h.holder j hj
    · intro j hj
      by_cases hji : j = i
      · subst hji; simp [Pc.inCritical]
      · simp only [Function.update_noteq hji]
        exact h.held j hj
    · simpa [Shared.unprinted, hm, hpc] using h.events
    · intro j e' evs' hj
      by_cases hji : j = i
      · subst hji; simp at hj
      · simp only [Function.update_noteq hji] at hj
        exact h.loaded j e' evs' hj
    · simpa [Shared.holding, hm, hpc] using h.locks
    · intro j
      by_cases hji : j = i
      · subst hji
        have := h.order j
        simp only [hpc, Pc.inFlight, Shared.writtenBy] at this ⊢
        simpa [Pc.inFlight] using this
      · simp only [Function.update_noteq hji, Shared.writtenBy]
        exact h.order j
  · -- printing: second write system call, Fprintf returns
    have hm : s.mutex = some i := h.holder i (by simp [hpc, Pc.inCritical])
    have hparts : done ++ rest = formatEvent e := h.parts i e done rest hpc
    simp only [Shared.step, hpc]
    refine ⟨?_, ?_, ?_, ?_, ?_, ?_, ?_, ?_, ?_⟩
    · simp [OsFile.Write, h.isOpen]
    · have := h.data
      simp only [Shared.inProgress, hm, hpc] at this
      simp only [OsFile.Write, h.isOpen, Bool.false_eq_true, if_false, this, Shared.records,
        Shared.inProgress, Function.update_same, List.map_append, List.map_cons, List.map_nil,
        unlines_append, unlines, String.append_empty]
      rw [String.append_assoc, String.append_assoc, hparts, formatEvent_eq]
      simp [String.append_assoc, hm]
    · intro j e' done' rest' hj
      by_cases hji : j = i
      · subst hji; simp at hj
      · simp only [Function.update_noteq hji] at hj
        exact h.parts j e' done' rest' hj
    · intro j hj
      by_cases hji : j = i
      · rw [hji]; exact hm
      · simp only [Function.update_noteq hji] at hj
        exact h.holder j hj
    · intro j hj
      by_cases hji : j = i
      · subst hji; simp [Pc.inCritical]
      · simp only [Function.update_noteq hji]
        exact h.held j hj
    · have := h.events
      simp only [Shared.unprinted, hm, hpc] at this
      simp [Shared.unprinted, hm, this]
    · intro j e' evs' hj
      by_cases hji : j = i
      · subst hji; simp at hj
      · simp only [Function.update_noteq hji] at hj
        exact h.loaded j e' evs' hj
    · have := h.locks
      simp only [Shared.holding, hm, hpc] at this
      simp [Shared.holding, hm, this]
    · intro j
      by_cases hji : j = i
      · subst hji
        have := h.order j
        simp only [hpc, Pc.inFlight, Shared.writtenBy] at this ⊢
        simpa [Pc.inFlight, List.filter_append] using this
      · have hij : ¬ i = j := fun hh => hji hh.symm
        have := h.order j
        simp only [Shared.writtenBy] at this
        simp only [Function.update_noteq hji, Shared.writtenBy]
        simpa [List.filter_append, hij] using this
  · -- printed: Unlock
    have hm : s.mutex = some i := h.holder i (by simp [hpc, Pc.inCritical])
    have hothers : ∀ j, j ≠ i → (s.callers j).pc.inCritical = true → False := fun j hji hj => by
      have := h.holder j hj
      rw [hm] at this
      exact hji (Option.some.inj this).symm
    simp only [Shared.step, hpc]
    refine ⟨h.isOpen, ?_, ?_, ?_, ?_, ?_, ?_, ?_, ?_⟩
    · simpa [Shared.records, Shared.inProgress, hm, hpc] using h.data
    · intro j e' done' rest' hj
      by_cases hji : j = i
      · subst hji; simp at hj
      · simp only [Function.update_noteq hji] at hj
        exact h.parts j e' done' rest' hj
    · intro j hj
      by_cases hji : j = i
      · subst hji; simp [Pc.inCritical] at hj
      · simp only [Function.update_noteq hji] at hj
        exact absurd hj (fun hc => hothers j hji hc)
    · intro j hj
      simp at hj
    · simpa [Shared.unprinted, hm, hpc] using h.events
    · intro j e' evs' hj
      by_cases hji : j = i
      · subst hji; simp at hj
      · simp only [Function.update_noteq hji] at hj
        exact h.loaded j e' evs' hj
    · simpa [Shared.holding, hm, hpc] using h.locks
    · intro j
      by_cases hji : j = i
      · subst hji
        have := h.order j
        simp only [hpc, Pc.inFlight, Shared.writtenBy] at this ⊢
        simpa [Pc.inFlight] using this
      · simp only [Function.update_noteq hji, Shared.writtenBy]
        exact h.order j

theorem run_inv (f0 : MindwareFile) (calls0 : Nat → List (String × String))
    (sched : List Turn) : ∀ s : Shared, (∀ x ∈ sched, x.result = .full) →
      Shared.Inv f0 calls0 s → Shared.Inv f0 calls0 (s.run sched) := by
  induction sched with
  | nil => intro s _ h; exact h
  | cons x xs ih =>
    intro s hfull h
    exact ih _ (fun y hy => hfull y (List.mem_cons_of_mem _ hy))
      (step_inv f0 calls0 s x (hfull x (List.mem_cons_self _ _)) h)

theorem mem_writtenBy (s : Shared) (i : Nat) (x : mindwareEvent) (hx : x ∈ s.writtenBy i) :
    (i, x) ∈ s.written := by
  simp only [Shared.writtenBy, List.mem_map, List.mem_filter, beq_iff_eq] at hx
  obtain ⟨⟨j, y⟩, ⟨hmem, hj⟩, hy⟩ := hx
  simp only at hj hy
  subst hj; subst hy
  exact hmem

theorem timed_mono (s : Shared) (hi hi' : Nat) (hle : hi ≤ hi') (h : Shared.Timed hi s) :
    Shared.Timed hi' s where
  writtenLe := fun x hx => le_trans (h.writtenLe x hx) hle
  flightLe := fun i e he => le_trans (h.flightLe i e he) hle
  sorted := h.sorted
  before := h.before

theorem start_timed (f0 : MindwareFile) (calls0 : Nat → List (String × String)) :
    Shared.Timed 0 (Shared.start f0 calls0) where
  writtenLe := by intro x hx; simp [Shared.start] at hx
  flightLe := by intro i e he; simp [Shared.start, Pc.event] at he
  sorted := by intro i; simp [Shared.start, Shared.writtenBy]
  before := by intro i e he; simp [Shared.start, Pc.event] at he

/-- A step that changes neither the records written nor the event of the
call in progress of any goroutine keeps the timestamps as they are. -/
theorem timed_of_same (s s' : Shared) (hi : Nat) (h : Shared.Timed hi s)
    (hw : s'.written = s.written)
    (he : ∀ j, (s'.callers j).pc.event = (s.callers j).pc.event) : Shared.Timed hi s' where
  writtenLe := by rw [hw]; exact h.writtenLe
  flightLe := fun j e hj => h.flightLe j e (by rw [← he j]; exact hj)
  sorted := fun j => by
    have : s'.writtenBy j = s.writtenBy j := by simp [Shared.writtenBy, hw]
    rw [this]; exact h.sorted j
  before := fun j e hj x hx => by
    have hwb : s'.writtenBy j = s.writtenBy j := by simp [Shared.writtenBy, hw]
    rw [hwb] at hx
    exact h.before j e (by rw [← he j]; exact hj) x hx

theorem step_timed (s : Shared) (x : Turn) (hi : Nat) (hle : hi ≤ x.now.unixNano)
    (h : Shared.Timed hi s) : Shared.Timed x.now.unixNano (s.step x) := by
  obtain ⟨i, now, k, r⟩ := x
  simp only at hle ⊢
  have h' := timed_mono s hi now.unixNano hle h
  rcases hpc : (s.callers i).pc with _ | e | e | ⟨e, evs⟩ | e | ⟨e, done, rest⟩ | e
  · rcases htodo : (s.callers i).todo with _ | ⟨call, rest⟩
    · have hs : s.step ⟨i, now, k, r⟩ = s := by simp [Shared.step, hpc, htodo]
      rw [hs]; exact h'
    · simp only [Shared.step, hpc, htodo]
      refine ⟨h'.writtenLe, ?_, ?_, ?_⟩
      · intro j e' he
        by_cases hji : j = i
        · subst hji
          simp only [Function.update_same, Pc.event, Option.some.injEq] at he
          subst he; exact le_refl _
        · simp only [Function.update_noteq hji] at he
          exact h'.flightLe j e' he
      · intro j; exact h.sorted j
      · intro j e' he y hy
        by_cases hji : j = i
        · subst hji
          simp only [Function.update_same, Pc.event, Option.some.injEq] at he
          subst he
          exact h'.writtenLe _ (mem_writtenBy s j y hy)
        · simp only [Function.update_noteq hji] at he
          exact h.before j e' he y hy
  · rcases hm : s.mutex with _ | j
    · refine timed_of_same s _ _ h' ?_ ?_
      · simp [Shared.step, hpc, hm]
      · intro j
        by_cases hji : j = i
        · subst hji; simp [Shared.step, hpc, hm, Pc.event]
        · simp [Shared.step, hpc, hm, Function.update_noteq hji]
    · have hs : s.step ⟨i, now, k, r⟩ = s := by simp [Shared.step, hpc, hm]
      rw [hs]; exact h'
  · refine timed_of_same s _ _ h' ?_ ?_
    · simp [Shared.step, hpc]
    · intro j
      by_cases hji : j = i
      · subst hji; simp [Shared.step, hpc, Pc.event]
      · simp [Shared.step, hpc, Function.update_noteq hji]
  · refine timed_of_same s _ _ h' ?_ ?_
    · simp [Shared.step, hpc]
    · intro j
      by_cases hji : j = i
      · subst hji; simp [Shared.step, hpc, Pc.event]
      · simp [Shared.step, hpc, Function.update_noteq hji]
  · refine timed_of_same s _ _ h' ?_ ?_
    · simp [Shared.step, hpc]
    · intro j
      by_cases hji : j = i
      · subst hji; simp [Shared.step, hpc, Pc.event]
      · simp [Shared.step, hpc, Function.update_noteq hji]
  · -- printing: Fprintf returns, the call joins the records written
    have hev : (s.callers i).pc.event = some e := by simp [hpc, Pc.event]
    simp only [Shared.step, hpc]
    have hwb : ∀ j, Shared.writtenBy
        { f := { file := (s.f.file.Write rest r).1, events := s.f.events },
          mutex := s.mutex, lockOrder := s.lockOrder, written := s.written ++ [(i, e)],
          callers := Function.update s.callers i { s.callers i with pc := .printed e } } j
        = s.writtenBy j ++ (if i = j then [e] else []) := by
      intro j
      by_cases hij : i = j <;> simp [Shared.writtenBy, List.filter_append, hij]
    refine ⟨?_, ?_, ?_, ?_⟩
    · intro y hy
      simp only [List.mem_append, List.mem_singleton] at hy
      rcases hy with hy | hy
      · exact h'.writtenLe y hy
      · subst hy; exact h'.flightLe i e hev
    · intro j e' he
      by_cases hji : j = i
      · subst hji
        simp only [Function.update_same, Pc.event] at he
        exact h'.flightLe j e' (by simp [hpc, Pc.event, he])
      · simp only [Function.update_noteq hji] at he
        exact h'.flightLe j e' he
    · intro j
      rw [hwb j]
      by_cases hij : i = j
      · subst hij
        simp only [if_true, List.map_append, List.map_cons, List.map_nil]
        rw [List.pairwise_append]
        refine ⟨h.sorted i, List.pairwise_singleton _ _, ?_⟩
        intro a ha b hb
        simp only [List.mem_singleton] at hb
        subst hb
        simp only [List.mem_map] at ha
        obtain ⟨y, hy, rfl⟩ := ha
        exact h.before i e hev y hy
      · simp only [hij, if_false, List.append_nil]
        exact h.sorted j
    · intro j e' he y hy
      rw [hwb j] at hy
      by_cases hji : j = i
      · subst hji
        simp only [Function.update_same, Pc.event, Option.some.injEq] at he
        subst he
        simp only [if_true, List.mem_append, List.mem_singleton] at hy
        rcases hy with hy | hy
        · exact h.before j e hev y hy
        · subst hy; exact le_refl _
      · have hij : ¬ i = j := fun hh => hji hh.symm
        simp only [Function.update_noteq hji] at he
        simp only [hij, if_false, List.append_nil] at hy
        exact h.before j e' he y hy
  · simp only [Shared.step, hpc]
    refine ⟨h'.writtenLe, ?_, fun j => h.sorted j, ?_⟩
    · intro j e' he
      by_cases hji : j = i
      · subst hji
        simp [Pc.event] at he
      · simp only [Function.update_noteq hji] at he
        exact h'.flightLe j e' he
    · intro j e' he y hy
      by_cases hji : j = i
      · subst hji
        simp [Pc.event] at he
      · simp only [Function.update_noteq hji] at he
        exact h.before j e' he y hy

theorem run_timed (sched : List Turn) : ∀ (s : Shared) (hi : Nat),
    Shared.Timed hi s → (∀ x ∈ sched, hi ≤ x.now.unixNano) →
    (clockOf sched).Pairwise (· ≤ ·) → ∃ hi', Shared.Timed hi' (s.run sched) := by
  induction sched with
  | nil => intro s hi h _ _; exact ⟨hi, h⟩
  | cons x xs ih =>
    intro s hi h hlo hp
    simp only [clockOf, List.map_cons, List.pairwise_cons, List.mem_map] at hp
    refine ih (s.step x) x.now.unixNano
      (step_timed s x hi (hlo x (List.mem_cons_self _ _)) h) ?_ hp.2
    intro y hy
    exact hp.1 _ ⟨y, hy, rfl⟩

/-- A call that runs its seven steps with no other goroutine in between, from
a moment when the mutex is free, does what the sequential `WriteEvent` does:
the file and the event list are those that `WriteEvent` returns, the call is
the last to have taken the mutex and the last written, the mutex is free
again, and no other goroutine has moved. -/
theorem solo_call (s : Shared) (i : Nat) (now : Time) (k : Nat) (call : String × String)
    (rest : List (String × String)) (hpc : (s.callers i).pc = .idle)
    (htodo : (s.callers i).todo = call :: rest) (hm : s.mutex = none)
    (hopen : s.f.file.closed = false) :
    s.f.WriteEvent call.1 call.2 now .full = .returned (s.run (soloCall i now k)).f ∧
      (s.run (soloCall i now k)).mutex = none ∧
      (s.run (soloCall i now k)).lockOrder
        = s.lockOrder ++ [(i, { EventType := call.1, Name := call.2, Timestamp := now })] ∧
      (s.run (soloCall i now k)).written
        = s.written ++ [(i, { EventType := call.1, Name := call.2, Timestamp := now })] ∧
      (s.run (soloCall i now k)).callers i = { todo := rest, pc := .idle } ∧
      ∀ j, j ≠ i → (s.run (soloCall i now k)).callers j = s.callers j := by
  have hparts := take_append_drop_string
    (formatEvent { EventType := call.1, Name := call.2, Timestamp := now }) k
  refine ⟨?_, ?_, ?_, ?_, ?_, ?_⟩
  · simp only [soloCall, List.replicate, Shared.run, List.foldl, Shared.step, hpc, htodo, hm,
      Function.update_same, MindwareFile.WriteEvent, MindwareFile.pushEvent,
      MindwareFile.printEvent, OsFile.Write, hopen]
    simp only [Bool.false_eq_true, if_false, String.append_assoc, hparts]
  · simp [soloCall, List.replicate, Shared.run, Shared.step, hpc, htodo, hm]
  · simp [soloCall, List.replicate, Shared.run, Shared.step, hpc, htodo, hm]
  · simp [soloCall, List.replicate, Shared.run, Shared.step, hpc, htodo, hm]
  · simp [soloCall, List.replicate, Shared.run, Shared.step, hpc, htodo, hm]
  · intro j hji
    simp [soloCall, List.replicate, Shared.run, Shared.step, hpc, htodo, hm,
      Function.update_noteq hji]

/-- Claim C10, as amended. When several goroutines call `WriteEvent` on one open log
and the operating system takes every write in full, under every interleaving
of their steps: the file holds what it held before, then whole records, one for
each `Fprintf` that has returned, then at most the beginning of the one record
that the holder of the mutex is writing, so whenever the mutex is free the file
ends with a whole record and none is cut or mixed with another; at most one
goroutine is between `Lock` and `Unlock`; the records stand in the file in the
order in which their calls took the mutex; the records of each goroutine stand
in the order in which that goroutine made its calls; whenever the mutex is free
the in-memory list of events is in the order of the file; when the clock never
goes back, the timestamps of the records of one and the same goroutine never
decrease down the file; and a call that then runs with no other goroutine in
between does what the sequential `WriteEvent` does and leaves its record last
in the file. -/
theorem C10_serialized_appends (f0 : MindwareFile) (calls0 : Nat → List (String × String))
    (sched : List Turn) (hopen : f0.file.closed = false)
    (hfull : ∀ x ∈ sched, x.result = .full) :
    (Shared.after f0 calls0 sched).f.file.data
        = f0.file.data ++ unlines (Shared.after f0 calls0 sched).records
            ++ (Shared.after f0 calls0 sched).inProgress ∧
      ((Shared.after f0 calls0 sched).mutex = none →
        (Shared.after f0 calls0 sched).f.file.data
          = f0.file.data ++ unlines (Shared.after f0 calls0 sched).records) ∧
      (∀ i j : Nat, ((Shared.after f0 calls0 sched).callers i).pc.inCritical = true →
        ((Shared.after f0 calls0 sched).callers j).pc.inCritical = true → i = j) ∧
      ((Shared.after f0 calls0 sched).lockOrder
          = (Shared.after f0 calls0 sched).written ++ (Shared.after f0 calls0 sched).holding ∧
        (Shared.after f0 calls0 sched).holding.length ≤ 1) ∧
      (∀ i : Nat, ∃ rest, calls0 i
        = ((Shared.after f0 calls0 sched).writtenBy i).map (fun e => (e.EventType, e.Name))
            ++ rest) ∧
      ((Shared.after f0 calls0 sched).mutex = none →
        (Shared.after f0 calls0 sched).f.events
          = f0.events ++ (Shared.after f0 calls0 sched).written.map Prod.snd) ∧
      ((clockOf sched).Pairwise (· ≤ ·) → ∀ i : Nat,
        (((Shared.after f0 calls0 sched).writtenBy i).map
          (fun e => e.Timestamp.unixNano)).Pairwise (· ≤ ·)) ∧
      (∀ (i : Nat) (now : Time) (k : Nat) (call : String × String)
          (rest : List (String × String)),
        ((Shared.after f0 calls0 sched).callers i).pc = .idle →
        ((Shared.after f0 calls0 sched).callers i).todo = call :: rest →
        (Shared.after f0 calls0 sched).mutex = none →
        (Shared.after f0 calls0 sched).f.WriteEvent call.1 call.2 now .full
            = .returned ((Shared.after f0 calls0 sched).run (soloCall i now k)).f ∧
          ((Shared.after f0 calls0 sched).run (soloCall i now k)).written
            = (Shared.after f0 calls0 sched).written
                ++ [(i, { EventType := call.1, Name := call.2, Timestamp := now })] ∧
          ((Shared.after f0 calls0 sched).run (soloCall i now k)).lockOrder
            = (Shared.after f0 calls0 sched).lockOrder
                ++ [(i, { EventType := call.1, Name := call.2, Timestamp := now })] ∧
          ((Shared.after f0 calls0 sched).run (soloCall i now k)).f.file.data
            = (Shared.after f0 calls0 sched).f.file.data
                ++ (recordLine call.1 call.2 now ++ "\n") ∧
          ((Shared.after f0 calls0 sched).run (soloCall i now k)).callers i
            = { todo := rest, pc := .idle }) := by
  have hinv : Shared.Inv f0 calls0 (Shared.after f0 calls0 sched) :=
    run_inv f0 calls0 sched _ hfull (start_inv f0 calls0 hopen)
  refine ⟨hinv.data, ?_, ?_, ⟨hinv.locks, ?_⟩, ?_, ?_, ?_, ?_⟩
  · intro hm
    have := hinv.data
    simpa [Shared.inProgress, hm] using this
  · intro i j hi hj
    have h1 := hinv.holder i hi
    have h2 := hinv.holder j hj
    rw [h1] at h2
    exact Option.some.inj h2
  · unfold Shared.holding
    split
    · simp
    · split <;> simp
  · intro i
    refine ⟨((Shared.after f0 calls0 sched).callers i).pc.inFlight
      ++ ((Shared.after f0 calls0 sched).callers i).todo, ?_⟩
    rw [← List.append_assoc]
    exact hinv.order i
  · intro hm
    have := hinv.events
    simpa [Shared.unprinted, hm] using this
  · intro hp i
    obtain ⟨hi', ht⟩ := run_timed sched _ 0 (start_timed f0 calls0) (fun _ _ => Nat.zero_le _) hp
    exact ht.sorted i
  · intro i now k call rest hpc htodo hm
    obtain ⟨h1, _, h3, h4, h5, _⟩ :=
      solo_call (Shared.after f0 calls0 sched) i now k call rest hpc htodo hm hinv.isOpen
    refine ⟨h1, h4, h3, ?_, h5⟩
    have hw := WriteEvent_returned (Shared.after f0 calls0 sched).f call.1 call.2 now .full
    rw [h1] at hw
    have hf := Outcome.returned.inj hw
    rw [hf, printEvent_full _ _ (by exact hinv.isOpen), formatEvent_eq]
    rfl

/-- Witness of C10: two goroutines, one call each, the second taking the mutex
first, every write taken in full. -/
theorem C10_serialized_appends_witness :
    (Shared.after { file := { name := "subj1.log", data := "", closed := false }, events := [] }
        (fun i => if i = 0 then [("A", "")] else if i = 1 then [("B", "")] else [])
        [turnOf 0 1000000, turnOf 1 2000000, turnOf 1 3000000, turnOf 1 3000000,
         turnOf 1 3000000, turnOf 1 3000000, turnOf 1 3000000, turnOf 1 3000000,
         turnOf 0 4000000, turnOf 0 4000000, turnOf 0 4000000, turnOf 0 4000000,
         turnOf 0 4000000, turnOf 0 4000000]).lockOrder
      = (Shared.after { file := { name := "subj1.log", data := "", closed := false }, events := [] }
          (fun i => if i = 0 then [("A", "")] else if i = 1 then [("B", "")] else [])
          [turnOf 0 1000000, turnOf 1 2000000, turnOf 1 3000000, turnOf 1 3000000,
           turnOf 1 3000000, turnOf 1 3000000, turnOf 1 3000000, turnOf 1 3000000,
           turnOf 0 4000000, turnOf 0 4000000, turnOf 0 4000000, turnOf 0 4000000,
           turnOf 0 4000000, turnOf 0 4000000]).written
        ++ (Shared.after
          { file := { name := "subj1.log", data := "", closed := false }, events := [] }
          (fun i => if i = 0 then [("A", "")] else if i = 1 then [("B", "")] else [])
          [turnOf 0 1000000, turnOf 1 2000000, turnOf 1 3000000, turnOf 1 3000000,
           turnOf 1 3000000, turnOf 1 3000000, turnOf 1 3000000, turnOf 1 3000000,
           turnOf 0 4000000, turnOf 0 4000000, turnOf 0 4000000, turnOf 0 4000000,
           turnOf 0 4000000, turnOf 0 4000000]).holding :=
  (C10_serialized_appends
    { file := { name := "subj1.log", data := "", closed := false }, events := [] }
    (fun i => if i = 0 then [("A", "")] else if i = 1 then [("B", "")] else [])
    [turnOf 0 1000000, turnOf 1 2000000, turnOf 1 3000000, turnOf 1 3000000,
     turnOf 1 3000000, turnOf 1 3000000, turnOf 1 3000000, turnOf 1 3000000,
     turnOf 0 4000000, turnOf 0 4000000, turnOf 0 4000000, turnOf 0 4000000,
     turnOf 0 4000000, turnOf 0 4000000] rfl (by decide)).2.2.2.1.1

/-- Counterexample to C10 as stated. First: goroutine 0 enters `WriteEvent` and
reads the clock at 1 ms, goroutine 1 enters next and reads it at 2 ms, then
goroutine 1 takes the mutex first. The clock never goes back and every write
is taken in full, yet the file holds the record of goroutine 1 before that of
goroutine 0: the records are not in the order of the instants captured, and
the timestamps decrease from the third line to the fourth. Second: the disk
takes only seven bytes of the record of goroutine 0; the write error is
dropped, and the record of goroutine 1 follows the fragment on the same
line. -/
theorem C10_counterexample_timestamps_decrease :
    (∃ f : MindwareFile,
      NewMindwareFile "subj1.log" (.ok ()) (Time.ofNano 0) .full .full = .returned f ∧
      (clockOf
        [turnOf 0 1000000, turnOf 1 2000000, turnOf 1 3000000, turnOf 1 3000000,
         turnOf 1 3000000, turnOf 1 3000000, turnOf 1 3000000, turnOf 1 3000000,
         turnOf 0 4000000, turnOf 0 4000000, turnOf 0 4000000, turnOf 0 4000000,
         turnOf 0 4000000, turnOf 0 4000000]).Pairwise (· ≤ ·) ∧
      lines (Shared.after f
          (fun i => if i = 0 then [("A", "")] else if i = 1 then [("B", "")] else [])
          [turnOf 0 1000000, turnOf 1 2000000, turnOf 1 3000000, turnOf 1 3000000,
           turnOf 1 3000000, turnOf 1 3000000, turnOf 1 3000000, turnOf 1 3000000,
           turnOf 0 4000000, turnOf 0 4000000, turnOf 0 4000000, turnOf 0 4000000,
           turnOf 0 4000000, turnOf 0 4000000]).f.file.data
        = ["Event Type\tName\tDate\tTime", "Start Event\t\t01/01/1970\t12:00:00.000 AM",
           "B\t\t01/01/1970\t12:00:00.002 AM", "A\t\t01/01/1970\t12:00:00.001 AM"] ∧
      (Shared.after f
          (fun i => if i = 0 then [("A", "")] else if i = 1 then [("B", "")] else [])
          [turnOf 0 1000000, turnOf 1 2000000, turnOf 1 3000000, turnOf 1 3000000,
           turnOf 1 3000000, turnOf 1 3000000, turnOf 1 3000000, turnOf 1 3000000,
           turnOf 0 4000000, turnOf 0 4000000, turnOf 0 4000000, turnOf 0 4000000,
           turnOf 0 4000000, turnOf 0 4000000]).written.map
            (fun x => (x.1, x.2.Timestamp.unixNano))
        = [(1, 2000000), (0, 1000000)]) ∧
    (∃ f : MindwareFile,
      NewMindwareFile "subj1.log" (.ok ()) (Time.ofNano 0) .full .full = .returned f ∧
      lines (Shared.after f
          (fun i => if i = 0 then [("A", "")] else if i = 1 then [("B", "")] else [])
          [turnOf 0 1000000, turnOf 0 1000000, turnOf 0 1000000, turnOf 0 1000000,
           turnOf 0 1000000,
           ⟨0, Time.ofNano 1000000, 4, .short 3 ⟨"no space left on device"⟩⟩,
           turnOf 0 1000000,
           turnOf 1 2000000, turnOf 1 2000000, turnOf 1 2000000, turnOf 1 2000000,
           turnOf 1 2000000, turnOf 1 2000000, turnOf 1 2000000]).f.file.data
        = ["Event Type\tName\tDate\tTime", "Start Event\t\t01/01/1970\t12:00:00.000 AM",
           "A\t\t01/0B\t\t01/01/1970\t12:00:00.002 AM"]) := by
  refine ⟨⟨_, NewMindwareFile_ok _ _, ?_, ?_, ?_⟩, ⟨_, NewMindwareFile_ok _ _, ?_⟩⟩ <;> decide


end Psych
